import Mathlib

/-!
Verification of the daphne DAP core against its specification.

The development shallowly embeds:
* the message codec layer of `daphne/src/messages.rs` (TLS-style framing:
  big-endian fixed-width integers, 16-bit length-prefixed byte strings and
  vectors), together with the codec primitives it calls from the `prio`
  codec crate, which are modelled from the spec (section 4.1);
* the in-memory aggregator state of `daphne/src/testing.rs`
  (`MockAggregator::try_put_agg_share_span`, `mark_collected`,
  `MockLeaderMemory::finish_collect_job`, `put_report`,
  `MockLeaderMemoryPerTask::assign_report_to_bucket`).

Bytes are `Fin 256`; machine integers are `Nat` with explicit bounds.
-/

namespace Daphne

/-- A single octet. -/
abbrev Byte := Fin 256

/-- A byte string. -/
abbrev Bytes := List Byte

/-- Codec errors, as surfaced by the codec layer (spec section 4.1 and 8:
`decode` fails on short reads, on length-prefix mismatch, or on an
unrecognized discriminant tag; `get_decoded` additionally fails when
bytes are left over). -/
inductive CodecError where
  | ShortRead
  | UnexpectedValue
  | BytesLeftOver
  deriving DecidableEq, Repr

instance {ε α : Type} [DecidableEq ε] [DecidableEq α] : DecidableEq (Except ε α) :=
  fun x y =>
    match x, y with
    | .error a, .error b =>
      if h : a = b then .isTrue (by rw [h])
      else .isFalse (by intro hc; injection hc; contradiction)
    | .ok a, .ok b =>
      if h : a = b then .isTrue (by rw [h])
      else .isFalse (by intro hc; injection hc; contradiction)
    | .error _, .ok _ => .isFalse (by intro hc; cases hc)
    | .ok _, .error _ => .isFalse (by intro hc; cases hc)

/-- Result of a decoder reading from the front of a byte string: the decoded
value together with the remaining bytes (the cursor position). -/
abbrev DecRes (α : Type) := Except CodecError (α × Bytes)

/-- Sequencing of decoders; models the `?` operator threading a
`Cursor` through successive `decode` calls in the source. -/
def dthen {α β : Type} (d : Bytes → DecRes α) (f : α → Bytes → DecRes β)
    (bs : Bytes) : DecRes β :=
  match d bs with
  | .error e => .error e
  | .ok (a, rest) => f a rest

/-- A decoder that consumes nothing and returns `v`; models the final
`Ok(Self { ... })` of each `decode` implementation. -/
def dpure {α : Type} (v : α) (bs : Bytes) : DecRes α :=
  .ok (v, bs)

/-- A decoder that fails; models `Err(CodecError::...)`. -/
def dfail {α : Type} (e : CodecError) (_bs : Bytes) : DecRes α :=
  .error e

/-- Big-endian byte representation of `n` on `w` bytes (low `8*w` bits of
`n`); models `u8`/`u16`/`u64` `Encode` from the prio codec
(`to_be_bytes`). -/
def beBytes : Nat → Nat → Bytes
  | 0, _ => []
  | w + 1, n => ⟨n / 256 ^ w % 256, Nat.mod_lt _ (by norm_num)⟩ :: beBytes w (n % 256 ^ w)

/-- Accumulating big-endian decoder: reads `w` bytes, folding them onto
`acc`. -/
def beDecAux (acc : Nat) : Nat → Bytes → DecRes Nat
  | 0, bs => .ok (acc, bs)
  | _ + 1, [] => .error .ShortRead
  | w + 1, b :: bs => beDecAux (acc * 256 + b.val) w bs

/-- Modelled from the spec: the prio codec's fixed-width big-endian integer
decoder (`u8::decode`, `u16::decode`, `u64::decode`); a truncated input is a
short read. -/
def beDec (w : Nat) (bs : Bytes) : DecRes Nat :=
  beDecAux 0 w bs

/-- Reads exactly `n` raw bytes; models `bytes.read_exact` on a buffer of
length `n` (used for the 32-byte `Id` and `checksum` fields). -/
def readBytes (n : Nat) (bs : Bytes) : DecRes Bytes :=
  if n ≤ bs.length then .ok (bs.take n, bs.drop n) else .error .ShortRead

/-- `encode_u16_bytes` from `messages.rs`: a 16-bit length followed by the
raw bytes. (The source panics when the length exceeds `u16::MAX`; such
inputs are excluded by the well-formedness predicates below.) -/
def encU16Bytes (input : Bytes) : Bytes :=
  beBytes 2 input.length ++ input

/-- `decode_u16_bytes` from `messages.rs`: read a 16-bit length, then
exactly that many bytes. -/
def decU16Bytes : Bytes → DecRes Bytes :=
  dthen (beDec 2) fun len => readBytes len

/-- Concatenation of the encodings of a list of items (the body written by
`encode_u16_items` after its length prefix). -/
def encItems {α : Type} (enc : α → Bytes) (items : List α) : Bytes :=
  (items.map enc).flatten

/-- `encode_u16_items` from the prio codec: 16-bit byte-length prefix, then
the concatenated item encodings. -/
def encU16Items {α : Type} (enc : α → Bytes) (items : List α) : Bytes :=
  beBytes 2 (encItems enc items).length ++ encItems enc items

/-- Decode items from a length-delimited slice until it is exhausted. The
fuel argument (instantiated with the slice length) bounds the recursion;
every item decoder consumes at least one byte, so the fuel never runs out
on inputs that the source would accept. -/
def decItemsFuel {α : Type} (d : Bytes → DecRes α) : Nat → Bytes → Except CodecError (List α)
  | _, [] => .ok []
  | 0, _ :: _ => .error .ShortRead
  | fuel + 1, b :: bs =>
    match d (b :: bs) with
    | .error e => .error e
    | .ok (a, rest) =>
      match decItemsFuel d fuel rest with
      | .error e => .error e
      | .ok as => .ok (a :: as)

/-- The length-delimited part of `decode_u16_items`: slice off `len` bytes
(a short read if fewer remain) and decode items from the slice until it is
exhausted. -/
def decU16ItemsBody {α : Type} (d : Bytes → DecRes α) (len : Nat) (bs : Bytes) :
    DecRes (List α) :=
  if len ≤ bs.length then
    match decItemsFuel d len (bs.take len) with
    | .error e => .error e
    | .ok items => .ok (items, bs.drop len)
  else .error .ShortRead

/-- Modelled from the spec: the prio codec's `decode_u16_items` — read a
16-bit byte length, then decode items from a slice of that many bytes. -/
def decU16Items {α : Type} (d : Bytes → DecRes α) : Bytes → DecRes (List α) :=
  dthen (beDec 2) fun len => decU16ItemsBody d len

/-- Modelled from the spec: the prio codec's `get_decoded` — run the
decoder on the whole input and require that every byte is consumed. This
is the message-level `decode(bytes) -> msg | CodecError` operation of spec
section 4.1. -/
def getDecoded {α : Type} (d : Bytes → DecRes α) (bs : Bytes) : Except CodecError α :=
  match d bs with
  | .ok (a, []) => .ok a
  | .ok (_, _ :: _) => .error .BytesLeftOver
  | .error e => .error e

/-! ## Protocol message types (`daphne/src/messages.rs`)

Each Rust struct becomes a Lean structure; `u8`/`u16`/`u64` fields become
`Nat` with a well-formedness predicate `WF` recording the bounds that the
Rust types enforce (`[u8; 32]` becomes a list required to have length 32;
16-bit length-prefixed fields are required to fit their prefix, since the
source's `encode_u16_bytes` panics otherwise). For the HPKE codepoint
enums, `WF` additionally excludes `NotImplemented` carrying a recognized
codepoint, which is never produced by `decode`. -/

/-- `Id` — a 32-byte identifier (`messages.rs` line 21). -/
structure Id where
  val : Bytes
  deriving DecidableEq, Repr

def Id.encode (x : Id) : Bytes := x.val

def Id.decode : Bytes → DecRes Id :=
  dthen (readBytes 32) fun data => dpure (Id.mk data)

def Id.WF (x : Id) : Prop := x.val.length = 32

instance (x : Id) : Decidable x.WF := by unfold Id.WF; infer_instance

/-- `Nonce` — the timestamp and random number of a report. -/
structure Nonce where
  time : Nat
  rand : Nat
  deriving DecidableEq, Repr

def Nonce.encode (n : Nonce) : Bytes := beBytes 8 n.time ++ beBytes 8 n.rand

def Nonce.decode : Bytes → DecRes Nonce :=
  dthen (beDec 8) fun time =>
  dthen (beDec 8) fun rand =>
  dpure { time, rand }

def Nonce.WF (n : Nonce) : Prop := n.time < 256 ^ 8 ∧ n.rand < 256 ^ 8

instance (n : Nonce) : Decidable n.WF := by unfold Nonce.WF; infer_instance

/-- `HpkeCiphertext` — config id, KEM encapsulation, AEAD payload. -/
structure HpkeCiphertext where
  config_id : Nat
  enc : Bytes
  payload : Bytes
  deriving DecidableEq, Repr

def HpkeCiphertext.encode (c : HpkeCiphertext) : Bytes :=
  beBytes 1 c.config_id ++ (encU16Bytes c.enc ++ encU16Bytes c.payload)

def HpkeCiphertext.decode : Bytes → DecRes HpkeCiphertext :=
  dthen (beDec 1) fun config_id =>
  dthen decU16Bytes fun enc =>
  dthen decU16Bytes fun payload =>
  dpure { config_id, enc, payload }

def HpkeCiphertext.WF (c : HpkeCiphertext) : Prop :=
  c.config_id < 256 ∧ c.enc.length < 65536 ∧ c.payload.length < 65536

instance (c : HpkeCiphertext) : Decidable c.WF := by
  unfold HpkeCiphertext.WF; infer_instance

/-- `Report` — a report generated by a client. -/
structure Report where
  task_id : Id
  nonce : Nonce
  ignored_extensions : Bytes
  encrypted_input_shares : List HpkeCiphertext
  deriving DecidableEq, Repr

def Report.encode (r : Report) : Bytes :=
  r.task_id.encode ++ (r.nonce.encode ++ (encU16Bytes r.ignored_extensions ++
    encU16Items HpkeCiphertext.encode r.encrypted_input_shares))

def Report.decode : Bytes → DecRes Report :=
  dthen Id.decode fun task_id =>
  dthen Nonce.decode fun nonce =>
  dthen decU16Bytes fun ignored_extensions =>
  dthen (decU16Items HpkeCiphertext.decode) fun encrypted_input_shares =>
  dpure { task_id, nonce, ignored_extensions, encrypted_input_shares }

def Report.WF (r : Report) : Prop :=
  r.task_id.WF ∧ r.nonce.WF ∧ r.ignored_extensions.length < 65536 ∧
    (∀ c ∈ r.encrypted_input_shares, c.WF) ∧
    (encItems HpkeCiphertext.encode r.encrypted_input_shares).length < 65536

instance (r : Report) : Decidable r.WF := by unfold Report.WF; infer_instance

/-- `ReportShare` — per-report contents of an initial aggregate request. -/
structure ReportShare where
  nonce : Nonce
  ignored_extensions : Bytes
  encrypted_input_share : HpkeCiphertext
  deriving DecidableEq, Repr

def ReportShare.encode (r : ReportShare) : Bytes :=
  r.nonce.encode ++ (encU16Bytes r.ignored_extensions ++ r.encrypted_input_share.encode)

def ReportShare.decode : Bytes → DecRes ReportShare :=
  dthen Nonce.decode fun nonce =>
  dthen decU16Bytes fun ignored_extensions =>
  dthen HpkeCiphertext.decode fun encrypted_input_share =>
  dpure { nonce, ignored_extensions, encrypted_input_share }

def ReportShare.WF (r : ReportShare) : Prop :=
  r.nonce.WF ∧ r.ignored_extensions.length < 65536 ∧ r.encrypted_input_share.WF

instance (r : ReportShare) : Decidable r.WF := by
  unfold ReportShare.WF; infer_instance

/-- `TransitionFailure` — per-report failure codes 0 through 5. -/
inductive TransitionFailure where
  | BatchCollected
  | ReportReplayed
  | ReportDropped
  | HpkeUnknownConfigId
  | HpkeDecryptError
  | VdafPrepError
  deriving DecidableEq, Repr

/-- The `u8` discriminant of a `TransitionFailure` (`*self as u8`). -/
def TransitionFailure.toNat : TransitionFailure → Nat
  | .BatchCollected => 0
  | .ReportReplayed => 1
  | .ReportDropped => 2
  | .HpkeUnknownConfigId => 3
  | .HpkeDecryptError => 4
  | .VdafPrepError => 5

def TransitionFailure.encode (t : TransitionFailure) : Bytes := beBytes 1 t.toNat

/-- `TryFrom<u8> for TransitionFailure` (`messages.rs` lines 302-316). -/
def TransitionFailure.tryFrom (v : Nat) : Except CodecError TransitionFailure :=
  match v with
  | 0 => .ok .BatchCollected
  | 1 => .ok .ReportReplayed
  | 2 => .ok .ReportDropped
  | 3 => .ok .HpkeUnknownConfigId
  | 4 => .ok .HpkeDecryptError
  | 5 => .ok .VdafPrepError
  | _ => .error .UnexpectedValue

def TransitionFailure.decode : Bytes → DecRes TransitionFailure :=
  dthen (beDec 1) fun v => fun bs =>
    match TransitionFailure.tryFrom v with
    | .ok t => .ok (t, bs)
    | .error e => .error e

def TransitionFailure.WF (_ : TransitionFailure) : Prop := True

instance (t : TransitionFailure) : Decidable t.WF := by
  unfold TransitionFailure.WF; infer_instance

/-- `TransitionVar` — Continued(prep message) | Finished | Failed(code). -/
inductive TransitionVar where
  | Continued (vdaf_message : Bytes)
  | Finished
  | Failed (err : TransitionFailure)
  deriving DecidableEq, Repr

def TransitionVar.encode : TransitionVar → Bytes
  | .Continued vdaf_message => beBytes 1 0 ++ encU16Bytes vdaf_message
  | .Finished => beBytes 1 1
  | .Failed err => beBytes 1 2 ++ err.encode

def TransitionVar.decode : Bytes → DecRes TransitionVar :=
  dthen (beDec 1) fun tag =>
    match tag with
    | 0 => dthen decU16Bytes fun msg => dpure (TransitionVar.Continued msg)
    | 1 => dpure TransitionVar.Finished
    | 2 => dthen TransitionFailure.decode fun err => dpure (TransitionVar.Failed err)
    | _ => dfail .UnexpectedValue

def TransitionVar.WF : TransitionVar → Prop
  | .Continued vdaf_message => vdaf_message.length < 65536
  | .Finished => True
  | .Failed _ => True

instance (t : TransitionVar) : Decidable t.WF := by
  unfold TransitionVar.WF; cases t <;> infer_instance

/-- `Transition` — a report id (nonce) plus a `TransitionVar`. -/
structure Transition where
  nonce : Nonce
  var : TransitionVar
  deriving DecidableEq, Repr

def Transition.encode (t : Transition) : Bytes := t.nonce.encode ++ t.var.encode

def Transition.decode : Bytes → DecRes Transition :=
  dthen Nonce.decode fun nonce =>
  dthen TransitionVar.decode fun var =>
  dpure { nonce, var }

def Transition.WF (t : Transition) : Prop := t.nonce.WF ∧ t.var.WF

instance (t : Transition) : Decidable t.WF := by unfold Transition.WF; infer_instance

/-- `AggregateReqVar` — Init{agg_param, report shares} (tag 0) or
Continue{transitions} (tag 1). -/
inductive AggregateReqVar where
  | Init (agg_param : Bytes) (seq : List ReportShare)
  | Continue (seq : List Transition)
  deriving DecidableEq, Repr

def AggregateReqVar.encode : AggregateReqVar → Bytes
  | .Init agg_param seq =>
    beBytes 1 0 ++ (encU16Bytes agg_param ++ encU16Items ReportShare.encode seq)
  | .Continue seq => beBytes 1 1 ++ encU16Items Transition.encode seq

def AggregateReqVar.decode : Bytes → DecRes AggregateReqVar :=
  dthen (beDec 1) fun tag =>
    match tag with
    | 0 =>
      dthen decU16Bytes fun agg_param =>
      dthen (decU16Items ReportShare.decode) fun seq =>
      dpure (AggregateReqVar.Init agg_param seq)
    | 1 =>
      dthen (decU16Items Transition.decode) fun seq =>
      dpure (AggregateReqVar.Continue seq)
    | _ => dfail .UnexpectedValue

def AggregateReqVar.WF : AggregateReqVar → Prop
  | .Init agg_param seq =>
    agg_param.length < 65536 ∧ (∀ r ∈ seq, r.WF) ∧
      (encItems ReportShare.encode seq).length < 65536
  | .Continue seq =>
    (∀ t ∈ seq, t.WF) ∧ (encItems Transition.encode seq).length < 65536

instance (v : AggregateReqVar) : Decidable v.WF := by
  unfold AggregateReqVar.WF; cases v <;> infer_instance

/-- `AggregateReq` — task id, aggregation job id, and a variant. -/
structure AggregateReq where
  task_id : Id
  agg_job_id : Id
  var : AggregateReqVar
  deriving DecidableEq, Repr

def AggregateReq.encode (r : AggregateReq) : Bytes :=
  r.task_id.encode ++ (r.agg_job_id.encode ++ r.var.encode)

def AggregateReq.decode : Bytes → DecRes AggregateReq :=
  dthen Id.decode fun task_id =>
  dthen Id.decode fun agg_job_id =>
  dthen AggregateReqVar.decode fun var =>
  dpure { task_id, agg_job_id, var }

def AggregateReq.WF (r : AggregateReq) : Prop :=
  r.task_id.WF ∧ r.agg_job_id.WF ∧ r.var.WF

instance (r : AggregateReq) : Decidable r.WF := by
  unfold AggregateReq.WF; infer_instance

/-- `AggregateResp` — a sequence of transitions. -/
structure AggregateResp where
  seq : List Transition
  deriving DecidableEq, Repr

def AggregateResp.encode (r : AggregateResp) : Bytes :=
  encU16Items Transition.encode r.seq

def AggregateResp.decode : Bytes → DecRes AggregateResp :=
  dthen (decU16Items Transition.decode) fun seq => dpure { seq }

def AggregateResp.WF (r : AggregateResp) : Prop :=
  (∀ t ∈ r.seq, t.WF) ∧ (encItems Transition.encode r.seq).length < 65536

instance (r : AggregateResp) : Decidable r.WF := by
  unfold AggregateResp.WF; infer_instance

/-- `Interval` — a batch interval `{start, duration}`. -/
structure Interval where
  start : Nat
  duration : Nat
  deriving DecidableEq, Repr

def Interval.encode (i : Interval) : Bytes :=
  beBytes 8 i.start ++ beBytes 8 i.duration

def Interval.decode : Bytes → DecRes Interval :=
  dthen (beDec 8) fun start =>
  dthen (beDec 8) fun duration =>
  dpure { start, duration }

def Interval.WF (i : Interval) : Prop := i.start < 256 ^ 8 ∧ i.duration < 256 ^ 8

instance (i : Interval) : Decidable i.WF := by unfold Interval.WF; infer_instance

/-- `CollectReq` — task id, batch interval, aggregation parameter. -/
structure CollectReq where
  task_id : Id
  batch_interval : Interval
  agg_param : Bytes
  deriving DecidableEq, Repr

def CollectReq.encode (r : CollectReq) : Bytes :=
  r.task_id.encode ++ (r.batch_interval.encode ++ encU16Bytes r.agg_param)

def CollectReq.decode : Bytes → DecRes CollectReq :=
  dthen Id.decode fun task_id =>
  dthen Interval.decode fun batch_interval =>
  dthen decU16Bytes fun agg_param =>
  dpure { task_id, batch_interval, agg_param }

def CollectReq.WF (r : CollectReq) : Prop :=
  r.task_id.WF ∧ r.batch_interval.WF ∧ r.agg_param.length < 65536

instance (r : CollectReq) : Decidable r.WF := by unfold CollectReq.WF; infer_instance

/-- `CollectResp` — the encrypted aggregate shares. -/
structure CollectResp where
  encrypted_agg_shares : List HpkeCiphertext
  deriving DecidableEq, Repr

def CollectResp.encode (r : CollectResp) : Bytes :=
  encU16Items HpkeCiphertext.encode r.encrypted_agg_shares

def CollectResp.decode : Bytes → DecRes CollectResp :=
  dthen (decU16Items HpkeCiphertext.decode) fun encrypted_agg_shares =>
  dpure { encrypted_agg_shares }

def CollectResp.WF (r : CollectResp) : Prop :=
  (∀ c ∈ r.encrypted_agg_shares, c.WF) ∧
    (encItems HpkeCiphertext.encode r.encrypted_agg_shares).length < 65536

instance (r : CollectResp) : Decidable r.WF := by
  unfold CollectResp.WF; infer_instance

/-- `AggregateShareReq` — task id, batch interval, aggregation parameter,
report count, and 32-byte checksum. -/
structure AggregateShareReq where
  task_id : Id
  batch_interval : Interval
  agg_param : Bytes
  report_count : Nat
  checksum : Bytes
  deriving DecidableEq, Repr

def AggregateShareReq.encode (r : AggregateShareReq) : Bytes :=
  r.task_id.encode ++ (r.batch_interval.encode ++ (encU16Bytes r.agg_param ++
    (beBytes 8 r.report_count ++ r.checksum)))

def AggregateShareReq.decode : Bytes → DecRes AggregateShareReq :=
  dthen Id.decode fun task_id =>
  dthen Interval.decode fun batch_interval =>
  dthen decU16Bytes fun agg_param =>
  dthen (beDec 8) fun report_count =>
  dthen (readBytes 32) fun checksum =>
  dpure { task_id, batch_interval, agg_param, report_count, checksum }

def AggregateShareReq.WF (r : AggregateShareReq) : Prop :=
  r.task_id.WF ∧ r.batch_interval.WF ∧ r.agg_param.length < 65536 ∧
    r.report_count < 256 ^ 8 ∧ r.checksum.length = 32

instance (r : AggregateShareReq) : Decidable r.WF := by
  unfold AggregateShareReq.WF; infer_instance

/-- `AggregateShareResp` — one encrypted aggregate share. -/
structure AggregateShareResp where
  encrypted_agg_share : HpkeCiphertext
  deriving DecidableEq, Repr

def AggregateShareResp.encode (r : AggregateShareResp) : Bytes :=
  r.encrypted_agg_share.encode

def AggregateShareResp.decode : Bytes → DecRes AggregateShareResp :=
  dthen HpkeCiphertext.decode fun encrypted_agg_share =>
  dpure { encrypted_agg_share }

def AggregateShareResp.WF (r : AggregateShareResp) : Prop :=
  r.encrypted_agg_share.WF

instance (r : AggregateShareResp) : Decidable r.WF := by
  unfold AggregateShareResp.WF; infer_instance

/-- `KEM_ID_X25519_HKDF_SHA256 = 0x0020`. -/
def KEM_ID_X25519_HKDF_SHA256 : Nat := 0x0020

/-- `KDF_ID_HKDF_SHA256 = 0x0001`. -/
def KDF_ID_HKDF_SHA256 : Nat := 0x0001

/-- `AEAD_ID_AES128GCM = 0x0001`. -/
def AEAD_ID_AES128GCM : Nat := 0x0001

/-- `HpkeKemId` — KEM codepoint; unrecognized values are kept as
`NotImplemented(raw)`. -/
inductive HpkeKemId where
  | X25519HkdfSha256
  | NotImplemented (x : Nat)
  deriving DecidableEq, Repr

/-- `From<HpkeKemId> for u16`. -/
def HpkeKemId.toNat : HpkeKemId → Nat
  | .X25519HkdfSha256 => KEM_ID_X25519_HKDF_SHA256
  | .NotImplemented x => x

def HpkeKemId.encode (k : HpkeKemId) : Bytes := beBytes 2 k.toNat

def HpkeKemId.decode : Bytes → DecRes HpkeKemId :=
  dthen (beDec 2) fun x => fun bs =>
    if x = KEM_ID_X25519_HKDF_SHA256 then .ok (.X25519HkdfSha256, bs)
    else .ok (.NotImplemented x, bs)

/-- Rust-representability plus canonicity: `decode` never yields
`NotImplemented` carrying the recognized codepoint. -/
def HpkeKemId.WF : HpkeKemId → Prop
  | .X25519HkdfSha256 => True
  | .NotImplemented x => x < 65536 ∧ x ≠ KEM_ID_X25519_HKDF_SHA256

instance (k : HpkeKemId) : Decidable k.WF := by
  unfold HpkeKemId.WF; cases k <;> unfold KEM_ID_X25519_HKDF_SHA256 <;> infer_instance

/-- `HpkeKdfId` — KDF codepoint. -/
inductive HpkeKdfId where
  | HkdfSha256
  | NotImplemented (x : Nat)
  deriving DecidableEq, Repr

def HpkeKdfId.toNat : HpkeKdfId → Nat
  | .HkdfSha256 => KDF_ID_HKDF_SHA256
  | .NotImplemented x => x

def HpkeKdfId.encode (k : HpkeKdfId) : Bytes := beBytes 2 k.toNat

def HpkeKdfId.decode : Bytes → DecRes HpkeKdfId :=
  dthen (beDec 2) fun x => fun bs =>
    if x = KDF_ID_HKDF_SHA256 then .ok (.HkdfSha256, bs)
    else .ok (.NotImplemented x, bs)

def HpkeKdfId.WF : HpkeKdfId → Prop
  | .HkdfSha256 => True
  | .NotImplemented x => x < 65536 ∧ x ≠ KDF_ID_HKDF_SHA256

instance (k : HpkeKdfId) : Decidable k.WF := by
  unfold HpkeKdfId.WF; cases k <;> unfold KDF_ID_HKDF_SHA256 <;> infer_instance

/-- `HpkeAeadId` — AEAD codepoint. -/
inductive HpkeAeadId where
  | Aes128Gcm
  | NotImplemented (x : Nat)
  deriving DecidableEq, Repr

def HpkeAeadId.toNat : HpkeAeadId → Nat
  | .Aes128Gcm => AEAD_ID_AES128GCM
  | .NotImplemented x => x

def HpkeAeadId.encode (k : HpkeAeadId) : Bytes := beBytes 2 k.toNat

def HpkeAeadId.decode : Bytes → DecRes HpkeAeadId :=
  dthen (beDec 2) fun x => fun bs =>
    if x = AEAD_ID_AES128GCM then .ok (.Aes128Gcm, bs)
    else .ok (.NotImplemented x, bs)

def HpkeAeadId.WF : HpkeAeadId → Prop
  | .Aes128Gcm => True
  | .NotImplemented x => x < 65536 ∧ x ≠ AEAD_ID_AES128GCM

instance (k : HpkeAeadId) : Decidable k.WF := by
  unfold HpkeAeadId.WF; cases k <;> unfold AEAD_ID_AES128GCM <;> infer_instance

/-- `HpkeConfig` — the HPKE public key configuration of a server. -/
structure HpkeConfig where
  id : Nat
  kem_id : HpkeKemId
  kdf_id : HpkeKdfId
  aead_id : HpkeAeadId
  public_key : Bytes
  deriving DecidableEq, Repr

def HpkeConfig.encode (c : HpkeConfig) : Bytes :=
  beBytes 1 c.id ++ (c.kem_id.encode ++ (c.kdf_id.encode ++
    (c.aead_id.encode ++ encU16Bytes c.public_key)))

def HpkeConfig.decode : Bytes → DecRes HpkeConfig :=
  dthen (beDec 1) fun id =>
  dthen HpkeKemId.decode fun kem_id =>
  dthen HpkeKdfId.decode fun kdf_id =>
  dthen HpkeAeadId.decode fun aead_id =>
  dthen decU16Bytes fun public_key =>
  dpure { id, kem_id, kdf_id, aead_id, public_key }

def HpkeConfig.WF (c : HpkeConfig) : Prop :=
  c.id < 256 ∧ c.kem_id.WF ∧ c.kdf_id.WF ∧ c.aead_id.WF ∧
    c.public_key.length < 65536

instance (c : HpkeConfig) : Decidable c.WF := by
  unfold HpkeConfig.WF; infer_instance

/-- Rust-representability of an `HpkeConfig` without the canonicity
requirement on the codepoint enums: any such value can be constructed in
the source (`NotImplemented` is a public variant). -/
def HpkeConfig.Representable (c : HpkeConfig) : Prop :=
  c.id < 256 ∧ c.kem_id.toNat < 65536 ∧ c.kdf_id.toNat < 65536 ∧
    c.aead_id.toNat < 65536 ∧ c.public_key.length < 65536

instance (c : HpkeConfig) : Decidable c.Representable := by
  unfold HpkeConfig.Representable; infer_instance

/-! ## Generic decoder lemmas -/

/-- `d` consumes exactly `full` and yields `a`, for any trailing bytes. -/
def DecOk {α : Type} (d : Bytes → DecRes α) (full : Bytes) (a : α) : Prop :=
  ∀ r, d (full ++ r) = .ok (a, r)

/-- `d` fails with a short read on every strict truncation of `full`. -/
def DecTrunc {α : Type} (d : Bytes → DecRes α) (full : Bytes) : Prop :=
  ∀ k, k < full.length → d (full.take k) = .error .ShortRead

theorem decok_dthen {α β : Type} {d : Bytes → DecRes α} {f : α → Bytes → DecRes β}
    {e₁ e₂ : Bytes} {a : α} {b : β}
    (h₁ : DecOk d e₁ a) (h₂ : DecOk (f a) e₂ b) :
    DecOk (dthen d f) (e₁ ++ e₂) b := by
  intro r
  rw [List.append_assoc]
  unfold dthen
  rw [h₁ (e₂ ++ r)]
  exact h₂ r

theorem decok_dthen_pure {α β : Type} {d : Bytes → DecRes α} {g : α → β}
    {e₁ : Bytes} {a : α}
    (h₁ : DecOk d e₁ a) :
    DecOk (dthen d fun x => dpure (g x)) e₁ (g a) := by
  intro r
  unfold dthen
  rw [h₁ r]
  rfl

theorem dectrunc_dthen {α β : Type} {d : Bytes → DecRes α} {f : α → Bytes → DecRes β}
    {e₁ e₂ : Bytes} {a : α}
    (h₁ : DecOk d e₁ a) (h₁t : DecTrunc d e₁) (h₂t : DecTrunc (f a) e₂) :
    DecTrunc (dthen d f) (e₁ ++ e₂) := by
  intro k hk
  rcases Nat.lt_or_ge k e₁.length with hlt | hge
  · rw [List.take_append_of_le_length (Nat.le_of_lt hlt)]
    unfold dthen
    rw [h₁t k hlt]
  · have htake : (e₁ ++ e₂).take k = e₁ ++ e₂.take (k - e₁.length) := by
      rw [List.take_append_eq_append_take, List.take_of_length_le hge]
    rw [htake]
    unfold dthen
    rw [h₁ (e₂.take (k - e₁.length))]
    have hk2 : k - e₁.length < e₂.length := by
      rw [List.length_append] at hk; omega
    exact h₂t (k - e₁.length) hk2

theorem dectrunc_dthen_pure {α β : Type} {d : Bytes → DecRes α} {g : α → β}
    {e₁ : Bytes}
    (h₁t : DecTrunc d e₁) :
    DecTrunc (dthen d fun x => dpure (g x)) e₁ := by
  intro k hk
  unfold dthen
  rw [h₁t k hk]

/-! ## Base codec lemmas -/

theorem beBytes_length (w n : Nat) : (beBytes w n).length = w := by
  induction w generalizing n with
  | zero => rfl
  | succ w ih => simp [beBytes, ih]

theorem beDecAux_append {w n : Nat} (hn : n < 256 ^ w) (acc : Nat) (r : Bytes) :
    beDecAux acc w (beBytes w n ++ r) = .ok (acc * 256 ^ w + n, r) := by
  induction w generalizing n acc with
  | zero =>
    have hn0 : n = 0 := by simpa [Nat.lt_one_iff] using hn
    subst hn0
    simp [beBytes, beDecAux]
  | succ w ih =>
    have hpos : 0 < 256 ^ w := Nat.pos_pow_of_pos w (by norm_num)
    have hmod : n % 256 ^ w < 256 ^ w := Nat.mod_lt _ hpos
    simp only [beBytes, List.cons_append, beDecAux, List.append_eq]
    rw [ih hmod]
    have hdiv : n / 256 ^ w < 256 := by
      apply Nat.div_lt_of_lt_mul
      calc n < 256 ^ (w + 1) := hn
        _ = 256 ^ w * 256 := by ring
    have heq : (acc * 256 + n / 256 ^ w % 256) * 256 ^ w + n % 256 ^ w
        = acc * 256 ^ (w + 1) + n := by
      rw [Nat.mod_eq_of_lt hdiv]
      calc (acc * 256 + n / 256 ^ w) * 256 ^ w + n % 256 ^ w
          = acc * (256 ^ w * 256) + (256 ^ w * (n / 256 ^ w) + n % 256 ^ w) := by ring
        _ = acc * 256 ^ (w + 1) + n := by rw [Nat.div_add_mod]; ring
    rw [heq]

theorem beDec_ok {w n : Nat} (hn : n < 256 ^ w) : DecOk (beDec w) (beBytes w n) n := by
  intro r
  unfold beDec
  rw [beDecAux_append hn 0 r]
  simp

theorem beDecAux_short {w : Nat} {bs : Bytes} (h : bs.length < w) (acc : Nat) :
    beDecAux acc w bs = .error .ShortRead := by
  induction w generalizing bs acc with
  | zero => omega
  | succ w ih =>
    cases bs with
    | nil => rfl
    | cons b tl =>
      simp only [beDecAux]
      exact ih (by simpa using Nat.lt_of_succ_lt_succ h) _

theorem beDec_trunc (w n : Nat) : DecTrunc (beDec w) (beBytes w n) := by
  intro k hk
  unfold beDec
  apply beDecAux_short
  rw [beBytes_length] at hk
  simp [hk, Nat.le_of_lt]

theorem beDecAux_exact {w : Nat} {bs r : Bytes} {acc n : Nat}
    (h : beDecAux acc w bs = .ok (n, r)) :
    ∃ m, m < 256 ^ w ∧ n = acc * 256 ^ w + m ∧ bs = beBytes w m ++ r := by
  induction w generalizing bs acc with
  | zero =>
    simp only [beDecAux, Except.ok.injEq, Prod.mk.injEq] at h
    exact ⟨0, by norm_num, by omega, by simp [beBytes, h.2]⟩
  | succ w ih =>
    cases bs with
    | nil => simp [beDecAux] at h
    | cons b tl =>
      simp only [beDecAux] at h
      obtain ⟨m, hm, hn, htl⟩ := ih h
      have hpos : 0 < 256 ^ w := Nat.pos_pow_of_pos w (by norm_num)
      refine ⟨b.val * 256 ^ w + m, ?_, ?_, ?_⟩
      · have hb : b.val + 1 ≤ 256 := b.isLt
        calc b.val * 256 ^ w + m < b.val * 256 ^ w + 256 ^ w := by omega
          _ = (b.val + 1) * 256 ^ w := by ring
          _ ≤ 256 * 256 ^ w := Nat.mul_le_mul_right _ hb
          _ = 256 ^ (w + 1) := by ring
      · rw [hn]; ring
      · have hkey : b.val * 256 ^ w + m = 256 ^ w * b.val + m := by ring
        have hdiv : (b.val * 256 ^ w + m) / 256 ^ w = b.val := by
          rw [hkey, Nat.mul_add_div hpos, Nat.div_eq_of_lt hm, Nat.add_zero]
        have hmod2 : (b.val * 256 ^ w + m) % 256 ^ w = m := by
          rw [hkey, Nat.mul_add_mod, Nat.mod_eq_of_lt hm]
        subst htl
        simp only [beBytes, List.cons_append, hdiv, hmod2]
        congr 1
        apply Fin.ext
        simp [Nat.mod_eq_of_lt b.isLt]

theorem beDec_exact {w : Nat} {bs r : Bytes} {n : Nat}
    (h : beDec w bs = .ok (n, r)) :
    n < 256 ^ w ∧ bs = beBytes w n ++ r := by
  obtain ⟨m, hm, hn, hbs⟩ := beDecAux_exact h
  simp only [Nat.zero_mul, Nat.zero_add] at hn
  subst hn
  exact ⟨hm, hbs⟩

theorem lt_pow_one {n : Nat} (h : n < 256) : n < 256 ^ 1 := by rwa [pow_one]

theorem lt_pow_two {n : Nat} (h : n < 65536) : n < 256 ^ 2 := by
  have h2 : (256 : Nat) ^ 2 = 65536 := by norm_num
  omega

theorem readBytes_ok {n : Nat} {v : Bytes} (h : v.length = n) :
    DecOk (readBytes n) v v := by
  intro r
  unfold readBytes
  rw [if_pos (by simp [List.length_append]; omega)]
  rw [List.take_left' h, List.drop_left' h]

theorem readBytes_trunc {n : Nat} {v : Bytes} (h : v.length = n) :
    DecTrunc (readBytes n) v := by
  intro k hk
  unfold readBytes
  rw [if_neg]
  rw [List.length_take]
  omega

theorem readBytes_exact {n : Nat} {bs v r : Bytes}
    (h : readBytes n bs = .ok (v, r)) :
    v.length = n ∧ bs = v ++ r := by
  unfold readBytes at h
  split at h
  · simp only [Except.ok.injEq, Prod.mk.injEq] at h
    obtain ⟨hv, hr⟩ := h
    subst hv; subst hr
    constructor
    · rw [List.length_take]; omega
    · rw [List.take_append_drop]
  · cases h

theorem dthen_exact {α β : Type} {d : Bytes → DecRes α} {f : α → Bytes → DecRes β}
    {bs : Bytes} {b : β} {r : Bytes}
    (h : dthen d f bs = .ok (b, r)) :
    ∃ a mid, d bs = .ok (a, mid) ∧ f a mid = .ok (b, r) := by
  unfold dthen at h
  cases h1 : d bs with
  | error e => rw [h1] at h; simp at h
  | ok p =>
    obtain ⟨a, mid⟩ := p
    rw [h1] at h
    exact ⟨a, mid, rfl, h⟩

theorem dpure_exact {α : Type} {v b : α} {bs r : Bytes}
    (h : dpure v bs = .ok (b, r)) : b = v ∧ r = bs := by
  unfold dpure at h
  simp only [Except.ok.injEq, Prod.mk.injEq] at h
  exact ⟨h.1.symm, h.2.symm⟩

theorem decU16Bytes_ok {v : Bytes} (h : v.length < 65536) :
    DecOk decU16Bytes (encU16Bytes v) v := by
  unfold decU16Bytes encU16Bytes
  exact decok_dthen (beDec_ok (lt_pow_two h)) (readBytes_ok rfl)

theorem decU16Bytes_trunc {v : Bytes} (h : v.length < 65536) :
    DecTrunc decU16Bytes (encU16Bytes v) := by
  unfold decU16Bytes encU16Bytes
  exact dectrunc_dthen (beDec_ok (lt_pow_two h)) (beDec_trunc 2 v.length)
    (readBytes_trunc rfl)

theorem decU16Bytes_exact {bs v r : Bytes}
    (h : decU16Bytes bs = .ok (v, r)) :
    v.length < 65536 ∧ bs = encU16Bytes v ++ r := by
  obtain ⟨len, mid, h1, h2⟩ := dthen_exact h
  obtain ⟨hlen, hbs⟩ := beDec_exact h1
  obtain ⟨hvlen, hmid⟩ := readBytes_exact h2
  have h16 : (256 : Nat) ^ 2 = 65536 := by norm_num
  constructor
  · omega
  · rw [hbs, hmid, encU16Bytes, hvlen, List.append_assoc]

theorem encItems_cons {α : Type} (enc : α → Bytes) (a : α) (as : List α) :
    encItems enc (a :: as) = enc a ++ encItems enc as := by
  simp [encItems]

theorem decItemsFuel_encItems {α : Type} {enc : α → Bytes} {d : Bytes → DecRes α}
    {items : List α}
    (hitems : ∀ a ∈ items, DecOk d (enc a) a)
    (hne : ∀ a ∈ items, enc a ≠ []) :
    ∀ fuel, (encItems enc items).length ≤ fuel →
      decItemsFuel d fuel (encItems enc items) = .ok items := by
  induction items with
  | nil =>
    intro fuel _
    have : encItems enc ([] : List α) = [] := by simp [encItems]
    rw [this]
    cases fuel <;> rfl
  | cons a as ih =>
    intro fuel hfuel
    have hea := hne a (by simp)
    have hDec := hitems a (by simp)
    rw [encItems_cons] at hfuel ⊢
    cases hb : enc a with
    | nil => exact absurd hb hea
    | cons b tl =>
      cases fuel with
      | zero =>
        rw [hb] at hfuel
        simp [List.length_append] at hfuel
      | succ fuel =>
        have hrec : decItemsFuel d fuel (encItems enc as) = .ok as := by
          apply ih (fun x hx => hitems x (by simp [hx])) (fun x hx => hne x (by simp [hx]))
          have h1 : 0 < (enc a).length := by rw [hb]; simp
          simp [List.length_append] at hfuel
          omega
        have hstep : d (b :: (tl ++ encItems enc as)) = .ok (a, encItems enc as) := by
          rw [← List.cons_append, ← hb]
          exact hDec _
        rw [List.cons_append]
        simp only [decItemsFuel]
        rw [hstep]
        simp only
        rw [hrec]

theorem decU16Items_ok {α : Type} {enc : α → Bytes} {d : Bytes → DecRes α}
    {items : List α}
    (hlen : (encItems enc items).length < 65536)
    (hitems : ∀ a ∈ items, DecOk d (enc a) a)
    (hne : ∀ a ∈ items, enc a ≠ []) :
    DecOk (decU16Items d) (encU16Items enc items) items := by
  unfold decU16Items encU16Items
  apply decok_dthen (beDec_ok (lt_pow_two hlen))
  intro r
  unfold decU16ItemsBody
  have hle : (encItems enc items).length ≤ (encItems enc items ++ r).length := by
    simp [List.length_append]
  rw [if_pos hle, List.take_left, List.drop_left]
  rw [decItemsFuel_encItems hitems hne _ (Nat.le_refl _)]

theorem decU16Items_trunc {α : Type} {enc : α → Bytes} {d : Bytes → DecRes α}
    {items : List α}
    (hlen : (encItems enc items).length < 65536) :
    DecTrunc (decU16Items d) (encU16Items enc items) := by
  unfold decU16Items encU16Items
  apply dectrunc_dthen (beDec_ok (lt_pow_two hlen))
    (beDec_trunc 2 (encItems enc items).length)
  intro k hk
  unfold decU16ItemsBody
  rw [if_neg]
  rw [List.length_take]
  omega

theorem decItemsFuel_exact {α : Type} {enc : α → Bytes} {d : Bytes → DecRes α}
    {P : α → Prop}
    (hd : ∀ bs a r, d bs = .ok (a, r) → P a ∧ enc a ≠ [] ∧ bs = enc a ++ r) :
    ∀ fuel bs items, decItemsFuel d fuel bs = .ok items →
      (∀ a ∈ items, P a) ∧ encItems enc items = bs := by
  intro fuel
  induction fuel with
  | zero =>
    intro bs items h
    cases bs with
    | nil =>
      simp only [decItemsFuel, Except.ok.injEq] at h
      subst h
      exact ⟨by simp, by simp [encItems]⟩
    | cons b tl => cases h
  | succ fuel ih =>
    intro bs items h
    cases bs with
    | nil =>
      simp only [decItemsFuel, Except.ok.injEq] at h
      subst h
      exact ⟨by simp, by simp [encItems]⟩
    | cons b tl =>
      simp only [decItemsFuel] at h
      cases h1 : d (b :: tl) with
      | error e => rw [h1] at h; simp at h
      | ok p =>
        obtain ⟨a, rest⟩ := p
        rw [h1] at h
        simp only at h
        cases h2 : decItemsFuel d fuel rest with
        | error e => rw [h2] at h; simp at h
        | ok as =>
          rw [h2] at h
          simp only [Except.ok.injEq] at h
          subst h
          obtain ⟨hPa, _, hbs⟩ := hd _ _ _ h1
          obtain ⟨hPas, henc⟩ := ih rest as h2
          refine ⟨?_, ?_⟩
          · intro x hx
            rcases List.mem_cons.mp hx with hx | hx
            · rw [hx]; exact hPa
            · exact hPas x hx
          · rw [encItems_cons, henc, hbs]

theorem decU16Items_exact {α : Type} {enc : α → Bytes} {d : Bytes → DecRes α}
    {P : α → Prop}
    (hd : ∀ bs a r, d bs = .ok (a, r) → P a ∧ enc a ≠ [] ∧ bs = enc a ++ r)
    {bs : Bytes} {items : List α} {r : Bytes}
    (h : decU16Items d bs = .ok (items, r)) :
    (∀ a ∈ items, P a) ∧ (encItems enc items).length < 65536 ∧
      bs = encU16Items enc items ++ r := by
  obtain ⟨len, mid, h1, h2⟩ := dthen_exact h
  obtain ⟨hlen, hbs⟩ := beDec_exact h1
  have h16 : (256 : Nat) ^ 2 = 65536 := by norm_num
  unfold decU16ItemsBody at h2
  split at h2
  case isTrue hle =>
    cases h3 : decItemsFuel d len (mid.take len) with
    | error e => rw [h3] at h2; simp at h2
    | ok items2 =>
      rw [h3] at h2
      simp only [Except.ok.injEq, Prod.mk.injEq] at h2
      obtain ⟨hitems, hr⟩ := h2
      subst hitems
      obtain ⟨hP, henc⟩ := decItemsFuel_exact hd _ _ _ h3
      have hlen2 : (encItems enc items2).length = len := by
        rw [henc, List.length_take]
        omega
      refine ⟨hP, by omega, ?_⟩
      rw [hbs, encU16Items, hlen2, henc, ← hr, List.append_assoc,
        List.take_append_drop]
  case isFalse => cases h2

/-! ## Per-type decode-of-encode lemmas -/

theorem Id_decode_ok {x : Id} (h : x.WF) : DecOk Id.decode x.encode x := by
  obtain ⟨v⟩ := x
  unfold Id.decode Id.encode
  exact decok_dthen_pure (readBytes_ok h)

theorem Nonce_decode_ok {n : Nonce} (h : n.WF) : DecOk Nonce.decode n.encode n := by
  obtain ⟨t, rd⟩ := n
  obtain ⟨h1, h2⟩ := h
  unfold Nonce.decode Nonce.encode
  exact decok_dthen (beDec_ok h1) (decok_dthen_pure (beDec_ok h2))

theorem HpkeCiphertext_decode_ok {c : HpkeCiphertext} (h : c.WF) :
    DecOk HpkeCiphertext.decode c.encode c := by
  obtain ⟨cid, e, p⟩ := c
  obtain ⟨h1, h2, h3⟩ := h
  unfold HpkeCiphertext.decode HpkeCiphertext.encode
  exact decok_dthen (beDec_ok (lt_pow_one h1))
    (decok_dthen (decU16Bytes_ok h2) (decok_dthen_pure (decU16Bytes_ok h3)))

theorem HpkeCiphertext_encode_ne_nil (c : HpkeCiphertext) : c.encode ≠ [] := by
  obtain ⟨cid, e, p⟩ := c
  simp [HpkeCiphertext.encode, beBytes]

theorem Report_decode_ok {m : Report} (h : m.WF) : DecOk Report.decode m.encode m := by
  obtain ⟨tid, non, exts, shares⟩ := m
  obtain ⟨h1, h2, h3, h4, h5⟩ := h
  unfold Report.decode Report.encode
  exact decok_dthen (Id_decode_ok h1)
    (decok_dthen (Nonce_decode_ok h2)
      (decok_dthen (decU16Bytes_ok h3)
        (decok_dthen_pure (decU16Items_ok h5
          (fun c hc => HpkeCiphertext_decode_ok (h4 c hc))
          (fun c _ => HpkeCiphertext_encode_ne_nil c)))))

theorem ReportShare_decode_ok {m : ReportShare} (h : m.WF) :
    DecOk ReportShare.decode m.encode m := by
  obtain ⟨non, exts, share⟩ := m
  obtain ⟨h1, h2, h3⟩ := h
  unfold ReportShare.decode ReportShare.encode
  exact decok_dthen (Nonce_decode_ok h1)
    (decok_dthen (decU16Bytes_ok h2)
      (decok_dthen_pure (HpkeCiphertext_decode_ok h3)))

theorem ReportShare_encode_ne_nil (m : ReportShare) : m.encode ≠ [] := by
  obtain ⟨non, exts, share⟩ := m
  simp [ReportShare.encode, Nonce.encode, beBytes]

theorem TransitionFailure_decode_ok (t : TransitionFailure) :
    DecOk TransitionFailure.decode t.encode t := by
  cases t <;> exact fun r => rfl

theorem TransitionVar_decode_ok {v : TransitionVar} (h : v.WF) :
    DecOk TransitionVar.decode v.encode v := by
  cases v with
  | Continued msg =>
    unfold TransitionVar.decode TransitionVar.encode
    exact decok_dthen (beDec_ok (by norm_num))
      (decok_dthen_pure (decU16Bytes_ok h))
  | Finished =>
    intro r
    rfl
  | Failed err =>
    unfold TransitionVar.decode TransitionVar.encode
    exact decok_dthen (beDec_ok (by norm_num))
      (decok_dthen_pure (TransitionFailure_decode_ok err))

theorem Transition_decode_ok {t : Transition} (h : t.WF) :
    DecOk Transition.decode t.encode t := by
  obtain ⟨non, v⟩ := t
  obtain ⟨h1, h2⟩ := h
  unfold Transition.decode Transition.encode
  exact decok_dthen (Nonce_decode_ok h1) (decok_dthen_pure (TransitionVar_decode_ok h2))

theorem Transition_encode_ne_nil (t : Transition) : t.encode ≠ [] := by
  obtain ⟨non, v⟩ := t
  simp [Transition.encode, Nonce.encode, beBytes]

theorem AggregateReqVar_decode_ok {v : AggregateReqVar} (h : v.WF) :
    DecOk AggregateReqVar.decode v.encode v := by
  cases v with
  | Init agg_param seq =>
    obtain ⟨h1, h2, h3⟩ := h
    unfold AggregateReqVar.decode AggregateReqVar.encode
    exact decok_dthen (beDec_ok (by norm_num))
      (decok_dthen (decU16Bytes_ok h1)
        (decok_dthen_pure (decU16Items_ok h3
          (fun x hx => ReportShare_decode_ok (h2 x hx))
          (fun x _ => ReportShare_encode_ne_nil x))))
  | Continue seq =>
    obtain ⟨h1, h2⟩ := h
    unfold AggregateReqVar.decode AggregateReqVar.encode
    exact decok_dthen (beDec_ok (by norm_num))
      (decok_dthen_pure (decU16Items_ok h2
        (fun x hx => Transition_decode_ok (h1 x hx))
        (fun x _ => Transition_encode_ne_nil x)))

theorem AggregateReq_decode_ok {m : AggregateReq} (h : m.WF) :
    DecOk AggregateReq.decode m.encode m := by
  obtain ⟨tid, jid, v⟩ := m
  obtain ⟨h1, h2, h3⟩ := h
  unfold AggregateReq.decode AggregateReq.encode
  exact decok_dthen (Id_decode_ok h1)
    (decok_dthen (Id_decode_ok h2) (decok_dthen_pure (AggregateReqVar_decode_ok h3)))

theorem AggregateResp_decode_ok {m : AggregateResp} (h : m.WF) :
    DecOk AggregateResp.decode m.encode m := by
  obtain ⟨seq⟩ := m
  obtain ⟨h1, h2⟩ := h
  unfold AggregateResp.decode AggregateResp.encode
  exact decok_dthen_pure (decU16Items_ok h2
    (fun x hx => Transition_decode_ok (h1 x hx))
    (fun x _ => Transition_encode_ne_nil x))

theorem Interval_decode_ok {i : Interval} (h : i.WF) :
    DecOk Interval.decode i.encode i := by
  obtain ⟨s, d⟩ := i
  obtain ⟨h1, h2⟩ := h
  unfold Interval.decode Interval.encode
  exact decok_dthen (beDec_ok h1) (decok_dthen_pure (beDec_ok h2))

theorem CollectReq_decode_ok {m : CollectReq} (h : m.WF) :
    DecOk CollectReq.decode m.encode m := by
  obtain ⟨tid, bi, ap⟩ := m
  obtain ⟨h1, h2, h3⟩ := h
  unfold CollectReq.decode CollectReq.encode
  exact decok_dthen (Id_decode_ok h1)
    (decok_dthen (Interval_decode_ok h2) (decok_dthen_pure (decU16Bytes_ok h3)))

theorem CollectResp_decode_ok {m : CollectResp} (h : m.WF) :
    DecOk CollectResp.decode m.encode m := by
  obtain ⟨shares⟩ := m
  obtain ⟨h1, h2⟩ := h
  unfold CollectResp.decode CollectResp.encode
  exact decok_dthen_pure (decU16Items_ok h2
    (fun x hx => HpkeCiphertext_decode_ok (h1 x hx))
    (fun x _ => HpkeCiphertext_encode_ne_nil x))

theorem AggregateShareReq_decode_ok {m : AggregateShareReq} (h : m.WF) :
    DecOk AggregateShareReq.decode m.encode m := by
  obtain ⟨tid, bi, ap, rc, cs⟩ := m
  obtain ⟨h1, h2, h3, h4, h5⟩ := h
  unfold AggregateShareReq.decode AggregateShareReq.encode
  exact decok_dthen (Id_decode_ok h1)
    (decok_dthen (Interval_decode_ok h2)
      (decok_dthen (decU16Bytes_ok h3)
        (decok_dthen (beDec_ok h4)
          (decok_dthen_pure (readBytes_ok h5)))))

theorem AggregateShareResp_decode_ok {m : AggregateShareResp} (h : m.WF) :
    DecOk AggregateShareResp.decode m.encode m := by
  obtain ⟨share⟩ := m
  unfold AggregateShareResp.decode AggregateShareResp.encode
  exact decok_dthen_pure (HpkeCiphertext_decode_ok h)

theorem HpkeKemId_decode_ok {k : HpkeKemId} (h : k.WF) :
    DecOk HpkeKemId.decode k.encode k := by
  cases k with
  | X25519HkdfSha256 =>
    intro r
    rfl
  | NotImplemented x =>
    obtain ⟨hx, hne⟩ := h
    intro r
    simp only [HpkeKemId.encode, HpkeKemId.toNat]
    unfold HpkeKemId.decode dthen
    rw [beDec_ok (lt_pow_two hx) r]
    simp only
    rw [if_neg hne]

theorem HpkeKdfId_decode_ok {k : HpkeKdfId} (h : k.WF) :
    DecOk HpkeKdfId.decode k.encode k := by
  cases k with
  | HkdfSha256 =>
    intro r
    rfl
  | NotImplemented x =>
    obtain ⟨hx, hne⟩ := h
    intro r
    simp only [HpkeKdfId.encode, HpkeKdfId.toNat]
    unfold HpkeKdfId.decode dthen
    rw [beDec_ok (lt_pow_two hx) r]
    simp only
    rw [if_neg hne]

theorem HpkeAeadId_decode_ok {k : HpkeAeadId} (h : k.WF) :
    DecOk HpkeAeadId.decode k.encode k := by
  cases k with
  | Aes128Gcm =>
    intro r
    rfl
  | NotImplemented x =>
    obtain ⟨hx, hne⟩ := h
    intro r
    simp only [HpkeAeadId.encode, HpkeAeadId.toNat]
    unfold HpkeAeadId.decode dthen
    rw [beDec_ok (lt_pow_two hx) r]
    simp only
    rw [if_neg hne]

theorem HpkeConfig_decode_ok {c : HpkeConfig} (h : c.WF) :
    DecOk HpkeConfig.decode c.encode c := by
  obtain ⟨cid, kem, kdf, aead, pk⟩ := c
  obtain ⟨h1, h2, h3, h4, h5⟩ := h
  unfold HpkeConfig.decode HpkeConfig.encode
  exact decok_dthen (beDec_ok (lt_pow_one h1))
    (decok_dthen (HpkeKemId_decode_ok h2)
      (decok_dthen (HpkeKdfId_decode_ok h3)
        (decok_dthen (HpkeAeadId_decode_ok h4)
          (decok_dthen_pure (decU16Bytes_ok h5)))))

/-! ## Per-type truncation lemmas -/

theorem Id_decode_trunc {x : Id} (h : x.WF) : DecTrunc Id.decode x.encode := by
  obtain ⟨v⟩ := x
  unfold Id.decode Id.encode
  exact dectrunc_dthen_pure (readBytes_trunc h)

theorem Nonce_decode_trunc {n : Nonce} (h : n.WF) : DecTrunc Nonce.decode n.encode := by
  obtain ⟨t, rd⟩ := n
  obtain ⟨h1, h2⟩ := h
  unfold Nonce.decode Nonce.encode
  exact dectrunc_dthen (beDec_ok h1) (beDec_trunc 8 t)
    (dectrunc_dthen_pure (beDec_trunc 8 rd))

theorem HpkeCiphertext_decode_trunc {c : HpkeCiphertext} (h : c.WF) :
    DecTrunc HpkeCiphertext.decode c.encode := by
  obtain ⟨cid, e, p⟩ := c
  obtain ⟨h1, h2, h3⟩ := h
  unfold HpkeCiphertext.decode HpkeCiphertext.encode
  exact dectrunc_dthen (beDec_ok (lt_pow_one h1)) (beDec_trunc 1 cid)
    (dectrunc_dthen (decU16Bytes_ok h2) (decU16Bytes_trunc h2)
      (dectrunc_dthen_pure (decU16Bytes_trunc h3)))

theorem Report_decode_trunc {m : Report} (h : m.WF) : DecTrunc Report.decode m.encode := by
  obtain ⟨tid, non, exts, shares⟩ := m
  obtain ⟨h1, h2, h3, h4, h5⟩ := h
  unfold Report.decode Report.encode
  exact dectrunc_dthen (Id_decode_ok h1) (Id_decode_trunc h1)
    (dectrunc_dthen (Nonce_decode_ok h2) (Nonce_decode_trunc h2)
      (dectrunc_dthen (decU16Bytes_ok h3) (decU16Bytes_trunc h3)
        (dectrunc_dthen_pure (decU16Items_trunc h5))))

theorem ReportShare_decode_trunc {m : ReportShare} (h : m.WF) :
    DecTrunc ReportShare.decode m.encode := by
  obtain ⟨non, exts, share⟩ := m
  obtain ⟨h1, h2, h3⟩ := h
  unfold ReportShare.decode ReportShare.encode
  exact dectrunc_dthen (Nonce_decode_ok h1) (Nonce_decode_trunc h1)
    (dectrunc_dthen (decU16Bytes_ok h2) (decU16Bytes_trunc h2)
      (dectrunc_dthen_pure (HpkeCiphertext_decode_trunc h3)))

theorem TransitionFailure_decode_trunc (t : TransitionFailure) :
    DecTrunc TransitionFailure.decode t.encode := by
  intro k hk
  have h1 : t.encode.length = 1 := by cases t <;> rfl
  have hk0 : k = 0 := by omega
  subst hk0
  rw [List.take_zero]
  rfl

theorem TransitionVar_decode_trunc {v : TransitionVar} (h : v.WF) :
    DecTrunc TransitionVar.decode v.encode := by
  cases v with
  | Continued msg =>
    unfold TransitionVar.decode TransitionVar.encode
    exact dectrunc_dthen (beDec_ok (by norm_num)) (beDec_trunc 1 0)
      (dectrunc_dthen_pure (decU16Bytes_trunc h))
  | Finished =>
    intro k hk
    have h1 : TransitionVar.Finished.encode.length = 1 := rfl
    have hk0 : k = 0 := by omega
    subst hk0
    rw [List.take_zero]
    rfl
  | Failed err =>
    unfold TransitionVar.decode TransitionVar.encode
    exact dectrunc_dthen (beDec_ok (by norm_num)) (beDec_trunc 1 2)
      (dectrunc_dthen_pure (TransitionFailure_decode_trunc err))

theorem Transition_decode_trunc {t : Transition} (h : t.WF) :
    DecTrunc Transition.decode t.encode := by
  obtain ⟨non, v⟩ := t
  obtain ⟨h1, h2⟩ := h
  unfold Transition.decode Transition.encode
  exact dectrunc_dthen (Nonce_decode_ok h1) (Nonce_decode_trunc h1)
    (dectrunc_dthen_pure (TransitionVar_decode_trunc h2))

theorem AggregateReqVar_decode_trunc {v : AggregateReqVar} (h : v.WF) :
    DecTrunc AggregateReqVar.decode v.encode := by
  cases v with
  | Init agg_param seq =>
    obtain ⟨h1, h2, h3⟩ := h
    unfold AggregateReqVar.decode AggregateReqVar.encode
    exact dectrunc_dthen (beDec_ok (by norm_num)) (beDec_trunc 1 0)
      (dectrunc_dthen (decU16Bytes_ok h1) (decU16Bytes_trunc h1)
        (dectrunc_dthen_pure (decU16Items_trunc h3)))
  | Continue seq =>
    obtain ⟨h1, h2⟩ := h
    unfold AggregateReqVar.decode AggregateReqVar.encode
    exact dectrunc_dthen (beDec_ok (by norm_num)) (beDec_trunc 1 1)
      (dectrunc_dthen_pure (decU16Items_trunc h2))

theorem AggregateReq_decode_trunc {m : AggregateReq} (h : m.WF) :
    DecTrunc AggregateReq.decode m.encode := by
  obtain ⟨tid, jid, v⟩ := m
  obtain ⟨h1, h2, h3⟩ := h
  unfold AggregateReq.decode AggregateReq.encode
  exact dectrunc_dthen (Id_decode_ok h1) (Id_decode_trunc h1)
    (dectrunc_dthen (Id_decode_ok h2) (Id_decode_trunc h2)
      (dectrunc_dthen_pure (AggregateReqVar_decode_trunc h3)))

theorem AggregateResp_decode_trunc {m : AggregateResp} (h : m.WF) :
    DecTrunc AggregateResp.decode m.encode := by
  obtain ⟨seq⟩ := m
  obtain ⟨h1, h2⟩ := h
  unfold AggregateResp.decode AggregateResp.encode
  exact dectrunc_dthen_pure (decU16Items_trunc h2)

theorem Interval_decode_trunc {i : Interval} (h : i.WF) :
    DecTrunc Interval.decode i.encode := by
  obtain ⟨s, d⟩ := i
  obtain ⟨h1, h2⟩ := h
  unfold Interval.decode Interval.encode
  exact dectrunc_dthen (beDec_ok h1) (beDec_trunc 8 s)
    (dectrunc_dthen_pure (beDec_trunc 8 d))

theorem CollectReq_decode_trunc {m : CollectReq} (h : m.WF) :
    DecTrunc CollectReq.decode m.encode := by
  obtain ⟨tid, bi, ap⟩ := m
  obtain ⟨h1, h2, h3⟩ := h
  unfold CollectReq.decode CollectReq.encode
  exact dectrunc_dthen (Id_decode_ok h1) (Id_decode_trunc h1)
    (dectrunc_dthen (Interval_decode_ok h2) (Interval_decode_trunc h2)
      (dectrunc_dthen_pure (decU16Bytes_trunc h3)))

theorem CollectResp_decode_trunc {m : CollectResp} (h : m.WF) :
    DecTrunc CollectResp.decode m.encode := by
  obtain ⟨shares⟩ := m
  obtain ⟨h1, h2⟩ := h
  unfold CollectResp.decode CollectResp.encode
  exact dectrunc_dthen_pure (decU16Items_trunc h2)

theorem AggregateShareReq_decode_trunc {m : AggregateShareReq} (h : m.WF) :
    DecTrunc AggregateShareReq.decode m.encode := by
  obtain ⟨tid, bi, ap, rc, cs⟩ := m
  obtain ⟨h1, h2, h3, h4, h5⟩ := h
  unfold AggregateShareReq.decode AggregateShareReq.encode
  exact dectrunc_dthen (Id_decode_ok h1) (Id_decode_trunc h1)
    (dectrunc_dthen (Interval_decode_ok h2) (Interval_decode_trunc h2)
      (dectrunc_dthen (decU16Bytes_ok h3) (decU16Bytes_trunc h3)
        (dectrunc_dthen (beDec_ok h4) (beDec_trunc 8 rc)
          (dectrunc_dthen_pure (readBytes_trunc h5)))))

theorem AggregateShareResp_decode_trunc {m : AggregateShareResp} (h : m.WF) :
    DecTrunc AggregateShareResp.decode m.encode := by
  obtain ⟨share⟩ := m
  unfold AggregateShareResp.decode AggregateShareResp.encode
  exact dectrunc_dthen_pure (HpkeCiphertext_decode_trunc h)

theorem HpkeKemId_decode_trunc (c : HpkeKemId) : DecTrunc HpkeKemId.decode c.encode := by
  intro k hk
  unfold HpkeKemId.encode at hk ⊢
  unfold HpkeKemId.decode dthen
  rw [beDec_trunc 2 c.toNat k hk]

theorem HpkeKdfId_decode_trunc (c : HpkeKdfId) : DecTrunc HpkeKdfId.decode c.encode := by
  intro k hk
  unfold HpkeKdfId.encode at hk ⊢
  unfold HpkeKdfId.decode dthen
  rw [beDec_trunc 2 c.toNat k hk]

theorem HpkeAeadId_decode_trunc (c : HpkeAeadId) : DecTrunc HpkeAeadId.decode c.encode := by
  intro k hk
  unfold HpkeAeadId.encode at hk ⊢
  unfold HpkeAeadId.decode dthen
  rw [beDec_trunc 2 c.toNat k hk]

theorem HpkeConfig_decode_trunc {c : HpkeConfig} (h : c.WF) :
    DecTrunc HpkeConfig.decode c.encode := by
  obtain ⟨cid, kem, kdf, aead, pk⟩ := c
  obtain ⟨h1, h2, h3, h4, h5⟩ := h
  unfold HpkeConfig.decode HpkeConfig.encode
  exact dectrunc_dthen (beDec_ok (lt_pow_one h1)) (beDec_trunc 1 cid)
    (dectrunc_dthen (HpkeKemId_decode_ok h2) (HpkeKemId_decode_trunc kem)
      (dectrunc_dthen (HpkeKdfId_decode_ok h3) (HpkeKdfId_decode_trunc kdf)
        (dectrunc_dthen (HpkeAeadId_decode_ok h4) (HpkeAeadId_decode_trunc aead)
          (dectrunc_dthen_pure (decU16Bytes_trunc h5)))))

/-! ## Per-type exactness lemmas: a successful decode consumes exactly the
canonical encoding of its result. -/

theorem Id_decode_exact {bs r : Bytes} {x : Id}
    (h : Id.decode bs = .ok (x, r)) : x.WF ∧ bs = x.encode ++ r := by
  unfold Id.decode at h
  obtain ⟨v, mid, hv, h⟩ := dthen_exact h
  obtain ⟨hx, hr⟩ := dpure_exact h
  obtain ⟨hlen, hbs⟩ := readBytes_exact hv
  subst hx
  subst hr
  exact ⟨hlen, hbs⟩

theorem Nonce_decode_exact {bs r : Bytes} {n : Nonce}
    (h : Nonce.decode bs = .ok (n, r)) : n.WF ∧ bs = n.encode ++ r := by
  unfold Nonce.decode at h
  obtain ⟨t, m1, ht, h⟩ := dthen_exact h
  obtain ⟨rd, m2, hrd, h⟩ := dthen_exact h
  obtain ⟨hn, hr⟩ := dpure_exact h
  obtain ⟨htb, hbs1⟩ := beDec_exact ht
  obtain ⟨hrb, hbs2⟩ := beDec_exact hrd
  subst hn
  subst hr
  refine ⟨⟨htb, hrb⟩, ?_⟩
  rw [hbs1, hbs2]
  simp [Nonce.encode]

theorem HpkeCiphertext_decode_exact {bs r : Bytes} {c : HpkeCiphertext}
    (h : HpkeCiphertext.decode bs = .ok (c, r)) : c.WF ∧ bs = c.encode ++ r := by
  unfold HpkeCiphertext.decode at h
  obtain ⟨cid, m1, hcid, h⟩ := dthen_exact h
  obtain ⟨e, m2, he, h⟩ := dthen_exact h
  obtain ⟨p, m3, hp, h⟩ := dthen_exact h
  obtain ⟨hc, hr⟩ := dpure_exact h
  obtain ⟨hcb, hbs1⟩ := beDec_exact hcid
  obtain ⟨heb, hbs2⟩ := decU16Bytes_exact he
  obtain ⟨hpb, hbs3⟩ := decU16Bytes_exact hp
  subst hc
  subst hr
  refine ⟨⟨by simpa using hcb, heb, hpb⟩, ?_⟩
  rw [hbs1, hbs2, hbs3]
  simp [HpkeCiphertext.encode]

theorem tryFrom_toNat {v : Nat} {t : TransitionFailure}
    (h : TransitionFailure.tryFrom v = .ok t) : v = t.toNat := by
  unfold TransitionFailure.tryFrom at h
  split at h <;> simp_all [TransitionFailure.toNat] <;> subst h <;> rfl

theorem TransitionFailure_decode_exact {bs r : Bytes} {t : TransitionFailure}
    (h : TransitionFailure.decode bs = .ok (t, r)) : t.WF ∧ bs = t.encode ++ r := by
  unfold TransitionFailure.decode at h
  obtain ⟨v, mid, hv, h⟩ := dthen_exact h
  obtain ⟨hvb, hbs⟩ := beDec_exact hv
  cases h3 : TransitionFailure.tryFrom v with
  | error e => rw [h3] at h; simp at h
  | ok t2 =>
    rw [h3] at h
    simp only [Except.ok.injEq, Prod.mk.injEq] at h
    obtain ⟨ht, hr⟩ := h
    subst ht
    subst hr
    refine ⟨trivial, ?_⟩
    rw [hbs, tryFrom_toNat h3]
    rfl

theorem TransitionVar_decode_exact {bs r : Bytes} {v : TransitionVar}
    (h : TransitionVar.decode bs = .ok (v, r)) : v.WF ∧ bs = v.encode ++ r := by
  unfold TransitionVar.decode at h
  obtain ⟨tag, mid, htag, h⟩ := dthen_exact h
  obtain ⟨htagb, hbs⟩ := beDec_exact htag
  split at h
  · -- tag = 0 : Continued
    obtain ⟨msg, m2, hmsg, h⟩ := dthen_exact h
    obtain ⟨hvv, hr⟩ := dpure_exact h
    obtain ⟨hmb, hbs2⟩ := decU16Bytes_exact hmsg
    subst hvv
    subst hr
    refine ⟨hmb, ?_⟩
    rw [hbs, hbs2]
    rfl
  · -- tag = 1 : Finished
    obtain ⟨hvv, hr⟩ := dpure_exact h
    subst hvv
    subst hr
    exact ⟨trivial, by rw [hbs]; rfl⟩
  · -- tag = 2 : Failed
    obtain ⟨err, m2, herr, h⟩ := dthen_exact h
    obtain ⟨hvv, hr⟩ := dpure_exact h
    obtain ⟨_, hbs2⟩ := TransitionFailure_decode_exact herr
    subst hvv
    subst hr
    refine ⟨trivial, ?_⟩
    rw [hbs, hbs2]
    rfl
  · -- unrecognized tag
    unfold dfail at h
    cases h

theorem Transition_decode_exact {bs r : Bytes} {t : Transition}
    (h : Transition.decode bs = .ok (t, r)) : t.WF ∧ bs = t.encode ++ r := by
  unfold Transition.decode at h
  obtain ⟨non, m1, hnon, h⟩ := dthen_exact h
  obtain ⟨v, m2, hv, h⟩ := dthen_exact h
  obtain ⟨ht, hr⟩ := dpure_exact h
  obtain ⟨hnw, hbs1⟩ := Nonce_decode_exact hnon
  obtain ⟨hvw, hbs2⟩ := TransitionVar_decode_exact hv
  subst ht
  subst hr
  refine ⟨⟨hnw, hvw⟩, ?_⟩
  rw [hbs1, hbs2]
  simp [Transition.encode]

theorem ReportShare_decode_exact {bs r : Bytes} {m : ReportShare}
    (h : ReportShare.decode bs = .ok (m, r)) : m.WF ∧ bs = m.encode ++ r := by
  unfold ReportShare.decode at h
  obtain ⟨non, m1, hnon, h⟩ := dthen_exact h
  obtain ⟨exts, m2, hexts, h⟩ := dthen_exact h
  obtain ⟨share, m3, hshare, h⟩ := dthen_exact h
  obtain ⟨hm, hr⟩ := dpure_exact h
  obtain ⟨hnw, hbs1⟩ := Nonce_decode_exact hnon
  obtain ⟨hew, hbs2⟩ := decU16Bytes_exact hexts
  obtain ⟨hsw, hbs3⟩ := HpkeCiphertext_decode_exact hshare
  subst hm
  subst hr
  refine ⟨⟨hnw, hew, hsw⟩, ?_⟩
  rw [hbs1, hbs2, hbs3]
  simp [ReportShare.encode]

theorem Report_decode_exact {bs r : Bytes} {m : Report}
    (h : Report.decode bs = .ok (m, r)) : m.WF ∧ bs = m.encode ++ r := by
  unfold Report.decode at h
  obtain ⟨tid, m1, htid, h⟩ := dthen_exact h
  obtain ⟨non, m2, hnon, h⟩ := dthen_exact h
  obtain ⟨exts, m3, hexts, h⟩ := dthen_exact h
  obtain ⟨shares, m4, hshares, h⟩ := dthen_exact h
  obtain ⟨hm, hr⟩ := dpure_exact h
  obtain ⟨hiw, hbs1⟩ := Id_decode_exact htid
  obtain ⟨hnw, hbs2⟩ := Nonce_decode_exact hnon
  obtain ⟨hew, hbs3⟩ := decU16Bytes_exact hexts
  obtain ⟨hsw, hsl, hbs4⟩ := decU16Items_exact
    (fun bs a r h => ⟨(HpkeCiphertext_decode_exact h).1,
      HpkeCiphertext_encode_ne_nil a, (HpkeCiphertext_decode_exact h).2⟩) hshares
  subst hm
  subst hr
  refine ⟨⟨hiw, hnw, hew, hsw, hsl⟩, ?_⟩
  rw [hbs1, hbs2, hbs3, hbs4]
  simp [Report.encode]

theorem AggregateReqVar_decode_exact {bs r : Bytes} {v : AggregateReqVar}
    (h : AggregateReqVar.decode bs = .ok (v, r)) : v.WF ∧ bs = v.encode ++ r := by
  unfold AggregateReqVar.decode at h
  obtain ⟨tag, mid, htag, h⟩ := dthen_exact h
  obtain ⟨htagb, hbs⟩ := beDec_exact htag
  split at h
  · -- tag = 0 : Init
    obtain ⟨ap, m2, hap, h⟩ := dthen_exact h
    obtain ⟨seq, m3, hseq, h⟩ := dthen_exact h
    obtain ⟨hvv, hr⟩ := dpure_exact h
    obtain ⟨haw, hbs2⟩ := decU16Bytes_exact hap
    obtain ⟨hsw, hsl, hbs3⟩ := decU16Items_exact
      (fun bs a r h => ⟨(ReportShare_decode_exact h).1,
        ReportShare_encode_ne_nil a, (ReportShare_decode_exact h).2⟩) hseq
    subst hvv
    subst hr
    refine ⟨⟨haw, hsw, hsl⟩, ?_⟩
    rw [hbs, hbs2, hbs3]
    simp [AggregateReqVar.encode]
  · -- tag = 1 : Continue
    obtain ⟨seq, m2, hseq, h⟩ := dthen_exact h
    obtain ⟨hvv, hr⟩ := dpure_exact h
    obtain ⟨hsw, hsl, hbs2⟩ := decU16Items_exact
      (fun bs a r h => ⟨(Transition_decode_exact h).1,
        Transition_encode_ne_nil a, (Transition_decode_exact h).2⟩) hseq
    subst hvv
    subst hr
    refine ⟨⟨hsw, hsl⟩, ?_⟩
    rw [hbs, hbs2]
    simp [AggregateReqVar.encode]
  · -- unrecognized tag
    unfold dfail at h
    cases h

theorem AggregateReq_decode_exact {bs r : Bytes} {m : AggregateReq}
    (h : AggregateReq.decode bs = .ok (m, r)) : m.WF ∧ bs = m.encode ++ r := by
  unfold AggregateReq.decode at h
  obtain ⟨tid, m1, htid, h⟩ := dthen_exact h
  obtain ⟨jid, m2, hjid, h⟩ := dthen_exact h
  obtain ⟨v, m3, hv, h⟩ := dthen_exact h
  obtain ⟨hm, hr⟩ := dpure_exact h
  obtain ⟨h1w, hbs1⟩ := Id_decode_exact htid
  obtain ⟨h2w, hbs2⟩ := Id_decode_exact hjid
  obtain ⟨h3w, hbs3⟩ := AggregateReqVar_decode_exact hv
  subst hm
  subst hr
  refine ⟨⟨h1w, h2w, h3w⟩, ?_⟩
  rw [hbs1, hbs2, hbs3]
  simp [AggregateReq.encode]

theorem AggregateResp_decode_exact {bs r : Bytes} {m : AggregateResp}
    (h : AggregateResp.decode bs = .ok (m, r)) : m.WF ∧ bs = m.encode ++ r := by
  unfold AggregateResp.decode at h
  obtain ⟨seq, m1, hseq, h⟩ := dthen_exact h
  obtain ⟨hm, hr⟩ := dpure_exact h
  obtain ⟨hsw, hsl, hbs⟩ := decU16Items_exact
    (fun bs a r h => ⟨(Transition_decode_exact h).1,
      Transition_encode_ne_nil a, (Transition_decode_exact h).2⟩) hseq
  subst hm
  subst hr
  exact ⟨⟨hsw, hsl⟩, hbs⟩

theorem Interval_decode_exact {bs r : Bytes} {i : Interval}
    (h : Interval.decode bs = .ok (i, r)) : i.WF ∧ bs = i.encode ++ r := by
  unfold Interval.decode at h
  obtain ⟨s, m1, hs, h⟩ := dthen_exact h
  obtain ⟨d, m2, hd, h⟩ := dthen_exact h
  obtain ⟨hi, hr⟩ := dpure_exact h
  obtain ⟨hsb, hbs1⟩ := beDec_exact hs
  obtain ⟨hdb, hbs2⟩ := beDec_exact hd
  subst hi
  subst hr
  refine ⟨⟨hsb, hdb⟩, ?_⟩
  rw [hbs1, hbs2]
  simp [Interval.encode]

theorem CollectReq_decode_exact {bs r : Bytes} {m : CollectReq}
    (h : CollectReq.decode bs = .ok (m, r)) : m.WF ∧ bs = m.encode ++ r := by
  unfold CollectReq.decode at h
  obtain ⟨tid, m1, htid, h⟩ := dthen_exact h
  obtain ⟨bi, m2, hbi, h⟩ := dthen_exact h
  obtain ⟨ap, m3, hap, h⟩ := dthen_exact h
  obtain ⟨hm, hr⟩ := dpure_exact h
  obtain ⟨h1w, hbs1⟩ := Id_decode_exact htid
  obtain ⟨h2w, hbs2⟩ := Interval_decode_exact hbi
  obtain ⟨h3w, hbs3⟩ := decU16Bytes_exact hap
  subst hm
  subst hr
  refine ⟨⟨h1w, h2w, h3w⟩, ?_⟩
  rw [hbs1, hbs2, hbs3]
  simp [CollectReq.encode]

theorem CollectResp_decode_exact {bs r : Bytes} {m : CollectResp}
    (h : CollectResp.decode bs = .ok (m, r)) : m.WF ∧ bs = m.encode ++ r := by
  unfold CollectResp.decode at h
  obtain ⟨shares, m1, hshares, h⟩ := dthen_exact h
  obtain ⟨hm, hr⟩ := dpure_exact h
  obtain ⟨hsw, hsl, hbs⟩ := decU16Items_exact
    (fun bs a r h => ⟨(HpkeCiphertext_decode_exact h).1,
      HpkeCiphertext_encode_ne_nil a, (HpkeCiphertext_decode_exact h).2⟩) hshares
  subst hm
  subst hr
  exact ⟨⟨hsw, hsl⟩, hbs⟩

theorem AggregateShareReq_decode_exact {bs r : Bytes} {m : AggregateShareReq}
    (h : AggregateShareReq.decode bs = .ok (m, r)) : m.WF ∧ bs = m.encode ++ r := by
  unfold AggregateShareReq.decode at h
  obtain ⟨tid, m1, htid, h⟩ := dthen_exact h
  obtain ⟨bi, m2, hbi, h⟩ := dthen_exact h
  obtain ⟨ap, m3, hap, h⟩ := dthen_exact h
  obtain ⟨rc, m4, hrc, h⟩ := dthen_exact h
  obtain ⟨cs, m5, hcs, h⟩ := dthen_exact h
  obtain ⟨hm, hr⟩ := dpure_exact h
  obtain ⟨h1w, hbs1⟩ := Id_decode_exact htid
  obtain ⟨h2w, hbs2⟩ := Interval_decode_exact hbi
  obtain ⟨h3w, hbs3⟩ := decU16Bytes_exact hap
  obtain ⟨h4w, hbs4⟩ := beDec_exact hrc
  obtain ⟨h5w, hbs5⟩ := readBytes_exact hcs
  subst hm
  subst hr
  refine ⟨⟨h1w, h2w, h3w, h4w, h5w⟩, ?_⟩
  rw [hbs1, hbs2, hbs3, hbs4, hbs5]
  simp [AggregateShareReq.encode]

theorem AggregateShareResp_decode_exact {bs r : Bytes} {m : AggregateShareResp}
    (h : AggregateShareResp.decode bs = .ok (m, r)) : m.WF ∧ bs = m.encode ++ r := by
  unfold AggregateShareResp.decode at h
  obtain ⟨share, m1, hshare, h⟩ := dthen_exact h
  obtain ⟨hm, hr⟩ := dpure_exact h
  obtain ⟨hsw, hbs⟩ := HpkeCiphertext_decode_exact hshare
  subst hm
  subst hr
  exact ⟨hsw, hbs⟩

theorem HpkeKemId_decode_exact {bs r : Bytes} {k : HpkeKemId}
    (h : HpkeKemId.decode bs = .ok (k, r)) : k.WF ∧ bs = k.encode ++ r := by
  unfold HpkeKemId.decode at h
  obtain ⟨x, mid, hx, h⟩ := dthen_exact h
  obtain ⟨hxb, hbs⟩ := beDec_exact hx
  have h16 : (256 : Nat) ^ 2 = 65536 := by norm_num
  split at h
  case isTrue hxe =>
    simp only [Except.ok.injEq, Prod.mk.injEq] at h
    obtain ⟨hk, hr⟩ := h
    subst hk
    subst hr
    refine ⟨trivial, ?_⟩
    rw [hbs, hxe]
    rfl
  case isFalse hxe =>
    simp only [Except.ok.injEq, Prod.mk.injEq] at h
    obtain ⟨hk, hr⟩ := h
    subst hk
    subst hr
    refine ⟨⟨by omega, hxe⟩, ?_⟩
    rw [hbs]
    rfl

theorem HpkeKdfId_decode_exact {bs r : Bytes} {k : HpkeKdfId}
    (h : HpkeKdfId.decode bs = .ok (k, r)) : k.WF ∧ bs = k.encode ++ r := by
  unfold HpkeKdfId.decode at h
  obtain ⟨x, mid, hx, h⟩ := dthen_exact h
  obtain ⟨hxb, hbs⟩ := beDec_exact hx
  have h16 : (256 : Nat) ^ 2 = 65536 := by norm_num
  split at h
  case isTrue hxe =>
    simp only [Except.ok.injEq, Prod.mk.injEq] at h
    obtain ⟨hk, hr⟩ := h
    subst hk
    subst hr
    refine ⟨trivial, ?_⟩
    rw [hbs, hxe]
    rfl
  case isFalse hxe =>
    simp only [Except.ok.injEq, Prod.mk.injEq] at h
    obtain ⟨hk, hr⟩ := h
    subst hk
    subst hr
    refine ⟨⟨by omega, hxe⟩, ?_⟩
    rw [hbs]
    rfl

theorem HpkeAeadId_decode_exact {bs r : Bytes} {k : HpkeAeadId}
    (h : HpkeAeadId.decode bs = .ok (k, r)) : k.WF ∧ bs = k.encode ++ r := by
  unfold HpkeAeadId.decode at h
  obtain ⟨x, mid, hx, h⟩ := dthen_exact h
  obtain ⟨hxb, hbs⟩ := beDec_exact hx
  have h16 : (256 : Nat) ^ 2 = 65536 := by norm_num
  split at h
  case isTrue hxe =>
    simp only [Except.ok.injEq, Prod.mk.injEq] at h
    obtain ⟨hk, hr⟩ := h
    subst hk
    subst hr
    refine ⟨trivial, ?_⟩
    rw [hbs, hxe]
    rfl
  case isFalse hxe =>
    simp only [Except.ok.injEq, Prod.mk.injEq] at h
    obtain ⟨hk, hr⟩ := h
    subst hk
    subst hr
    refine ⟨⟨by omega, hxe⟩, ?_⟩
    rw [hbs]
    rfl

theorem HpkeConfig_decode_exact {bs r : Bytes} {c : HpkeConfig}
    (h : HpkeConfig.decode bs = .ok (c, r)) : c.WF ∧ bs = c.encode ++ r := by
  unfold HpkeConfig.decode at h
  obtain ⟨cid, m1, hcid, h⟩ := dthen_exact h
  obtain ⟨kem, m2, hkem, h⟩ := dthen_exact h
  obtain ⟨kdf, m3, hkdf, h⟩ := dthen_exact h
  obtain ⟨aead, m4, haead, h⟩ := dthen_exact h
  obtain ⟨pk, m5, hpk, h⟩ := dthen_exact h
  obtain ⟨hc, hr⟩ := dpure_exact h
  obtain ⟨h1b, hbs1⟩ := beDec_exact hcid
  obtain ⟨h2w, hbs2⟩ := HpkeKemId_decode_exact hkem
  obtain ⟨h3w, hbs3⟩ := HpkeKdfId_decode_exact hkdf
  obtain ⟨h4w, hbs4⟩ := HpkeAeadId_decode_exact haead
  obtain ⟨h5w, hbs5⟩ := decU16Bytes_exact hpk
  subst hc
  subst hr
  refine ⟨⟨by simpa using h1b, h2w, h3w, h4w, h5w⟩, ?_⟩
  rw [hbs1, hbs2, hbs3, hbs4, hbs5]
  simp [HpkeConfig.encode]

/-! ## `Interval::end` and `Interval::is_valid_for` (`messages.rs` lines 373-389) -/

/-- `Interval::end` — `self.start + self.duration`, an unchecked `u64`
addition, which in a release build wraps modulo `2^64` (the source name is
the Rust keyword `end`). -/
def Interval.end' (i : Interval) : Nat := (i.start + i.duration) % 2 ^ 64

/-- Modelled from the spec: the `DapTaskConfig` field read by
`Interval::is_valid_for` — `min_batch_duration`, the task's time precision
(spec section 3 calls it `time_precision`). The full struct is not among
the provided sources. -/
structure DapTaskConfig where
  min_batch_duration : Nat
  deriving DecidableEq, Repr

/-- `Interval::is_valid_for` — false when the start or duration is not a
multiple of `min_batch_duration` or the duration is below it. -/
def Interval.is_valid_for (i : Interval) (task_config : DapTaskConfig) : Bool :=
  if i.start % task_config.min_batch_duration ≠ 0
      ∨ i.duration % task_config.min_batch_duration ≠ 0
      ∨ i.duration < task_config.min_batch_duration then
    false
  else true

/-! ## In-memory aggregator state (`daphne/src/testing.rs`)

Report ids, task times, batch ids and collection-job ids are opaque
identifiers in the source (32- or 16-byte arrays); they are modelled as
`Nat`. Hash maps are modelled as association lists, hash sets as lists
with membership. `DapAggregateShare` is an opaque VDAF accumulator (spec
section 3); the state is parametrized by its type `σ`, its default value,
and its fallible `merge` operation. -/

abbrev ReportId := Nat

abbrev Time := Nat

/-- Association-list lookup, modelling `HashMap::get`. -/
def alGet {κ ν : Type} [DecidableEq κ] (k : κ) : List (κ × ν) → Option ν
  | [] => none
  | (k2, v) :: rest => if k = k2 then some v else alGet k rest

/-- Association-list update/insert, modelling `HashMap::insert` (and the
write-back of an `entry(...)` handle). -/
def alSet {κ ν : Type} [DecidableEq κ] (k : κ) (v : ν) : List (κ × ν) → List (κ × ν)
  | [] => [(k, v)]
  | (k2, v2) :: rest => if k = k2 then (k, v) :: rest else (k2, v2) :: alSet k v rest

/-- `DapBatchBucket` — the unit of aggregation: a quantized time window or
a fixed-size batch id. -/
inductive DapBatchBucket where
  | TimeInterval (batch_window : Time)
  | FixedSize (batch_id : Nat)
  deriving DecidableEq, Repr

/-- `BatchSelector` — a time interval or a fixed-size batch id. -/
inductive BatchSelector where
  | TimeInterval (batch_interval : Interval)
  | FixedSizeByBatchId (batch_id : Nat)
  deriving DecidableEq, Repr

/-- Modelled from the spec: `DapTaskConfig::batch_span_for_sel` (not among
the provided sources) — the buckets of a batch selector: every quantized
window covered by the interval for a time-interval selector, the single
batch bucket for a fixed-size selector. `time_precision` is the task's
time precision. -/
def batch_span_for_sel (time_precision : Nat) : BatchSelector → List DapBatchBucket
  | .TimeInterval interval =>
    (List.range (interval.duration / time_precision)).map
      (fun i => .TimeInterval (interval.start + i * time_precision))
  | .FixedSizeByBatchId batch_id => [.FixedSize batch_id]

/-- `AggStore` (`testing.rs` lines 1515-1520): an aggregate share plus a
collected flag. -/
structure AggStore (σ : Type) where
  agg_share : σ
  collected : Bool
  deriving DecidableEq, Repr

/-- `MergeAggShareError` — the per-bucket error of
`try_put_agg_share_span`. -/
inductive MergeAggShareError (μ : Type) where
  | AlreadyCollected
  | ReplaysDetected (replays : List ReportId)
  | Other (e : μ)
  deriving DecidableEq, Repr

/-- The state of a `MockAggregator` projected to one task: the task's
processed-report set (`report_store`) and its per-bucket aggregate-share
map (`agg_store`). `try_put_agg_share_span` and `mark_collected` only
touch the entry of the task id they are given. -/
structure MockAggregatorTaskState (σ : Type) where
  report_store : List ReportId
  agg_store : List (DapBatchBucket × AggStore σ)
  deriving DecidableEq, Repr

/-- One bucket of `MockAggregator::try_put_agg_share_span` (`testing.rs`
lines 1232-1257): compute the replayed ids; if none, extend the processed
set with the bucket's report ids **before** looking at the collected flag,
then fail `AlreadyCollected` on a collected bucket or merge the delta into
the entry (created default if absent). On replay, nothing changes. -/
def tryPutBucket {σ μ : Type} (merge : σ → σ → Except μ σ) (dflt : σ)
    (st : MockAggregatorTaskState σ) (bucket : DapBatchBucket)
    (agg_share_delta : σ) (report_metadatas : List (ReportId × Time)) :
    Except (MergeAggShareError μ) Unit × MockAggregatorTaskState σ :=
  let replayed := (report_metadatas.map Prod.fst).filter
    (fun id => id ∈ st.report_store)
  if replayed = [] then
    let report_store := st.report_store ++ report_metadatas.map Prod.fst
    let entry := (alGet bucket st.agg_store).getD ⟨dflt, false⟩
    if entry.collected then
      (.error .AlreadyCollected,
        { report_store, agg_store := alSet bucket entry st.agg_store })
    else
      match merge entry.agg_share agg_share_delta with
      | .ok merged =>
        (.ok (),
          { report_store,
            agg_store := alSet bucket ⟨merged, false⟩ st.agg_store })
      | .error e =>
        (.error (.Other e),
          { report_store, agg_store := alSet bucket entry st.agg_store })
  else
    (.error (.ReplaysDetected replayed), st)

/-- `MockAggregator::try_put_agg_share_span` (`testing.rs` lines
1218-1259): process the span's buckets in iteration order, threading the
task's report store and aggregate-share store, and return the per-bucket
results paired with the report metadata. -/
def try_put_agg_share_span {σ μ : Type} (merge : σ → σ → Except μ σ) (dflt : σ)
    (st : MockAggregatorTaskState σ)
    (span : List (DapBatchBucket × σ × List (ReportId × Time))) :
    List (DapBatchBucket × Except (MergeAggShareError μ) Unit × List (ReportId × Time))
      × MockAggregatorTaskState σ :=
  match span with
  | [] => ([], st)
  | (bucket, delta, metas) :: rest =>
    let p := tryPutBucket merge dflt st bucket delta metas
    let q := try_put_agg_share_span merge dflt p.2 rest
    ((bucket, p.1, metas) :: q.1, q.2)

/-- Set the collected flag of one bucket, when present; models
`agg_store.get_mut(&bucket)` followed by `collected = true`. A bucket
with no entry is left absent. -/
def setCollected {σ : Type} (bucket : DapBatchBucket)
    (store : List (DapBatchBucket × AggStore σ)) :
    List (DapBatchBucket × AggStore σ) :=
  store.map fun p =>
    match p with
    | (b2, entry) =>
      if b2 = bucket then (b2, { entry with collected := true }) else (b2, entry)

/-- `MockAggregator::mark_collected` (`testing.rs` lines 1288-1304): set
`collected = true` on every bucket of the selector's span that has an
entry in the task's aggregate-share store. -/
def mark_collected {σ : Type} (time_precision : Nat)
    (st : MockAggregatorTaskState σ) (batch_sel : BatchSelector) :
    MockAggregatorTaskState σ :=
  { st with
    agg_store := (batch_span_for_sel time_precision batch_sel).foldl
      (fun acc bucket => setCollected bucket acc) st.agg_store }

/-! ## Leader memory (`daphne/src/testing.rs`) -/

/-- `DapCollectionJob` — the state of a collection job. -/
inductive DapCollectionJob (χ : Type) where
  | Pending
  | Done (collection : χ)
  | Unknown
  deriving DecidableEq, Repr

/-- The distinct `fatal_error!` cases of
`MockLeaderMemory::finish_collect_job`. -/
inductive FinishCollectJobError where
  | JobNotFound
  | OverwriteDone
  | OverwriteUnknown
  deriving DecidableEq, Repr

/-- `MockLeaderMemory::finish_collect_job` (`testing.rs` lines 733-760)
projected to one task's `coll_jobs` map: a job in `Pending` becomes
`Done(collection)`; a missing job, or one in `Done` or `Unknown`, is a
fatal error and the map is unchanged. -/
def finish_collect_job {χ : Type}
    (coll_jobs : List (Nat × DapCollectionJob χ)) (coll_job_id : Nat)
    (collection : χ) :
    Except FinishCollectJobError Unit × List (Nat × DapCollectionJob χ) :=
  match alGet coll_job_id coll_jobs with
  | none => (.error .JobNotFound, coll_jobs)
  | some .Pending =>
    (.ok (), alSet coll_job_id (.Done collection) coll_jobs)
  | some (.Done _) => (.error .OverwriteDone, coll_jobs)
  | some .Unknown => (.error .OverwriteUnknown, coll_jobs)

/-- `DapQueryConfig` — time-interval or fixed-size queries (the
fixed-size maximum batch size is irrelevant to the modelled operations). -/
inductive DapQueryConfig where
  | TimeInterval
  | FixedSize
  deriving DecidableEq, Repr

/-- Modelled from the spec: the `DapTaskConfig` fields read by the Leader
memory (`time_precision`, `min_batch_size`, `query`); the struct itself is
not among the provided sources. -/
structure DapTaskConfigT where
  time_precision : Nat
  min_batch_size : Nat
  query : DapQueryConfig
  deriving DecidableEq, Repr

/-- Modelled from the spec: `DapTaskConfig::quantized_time_lower_bound` —
`time − (time mod time_precision)`, the batch window of a timestamp. -/
def quantized_time_lower_bound (cfg : DapTaskConfigT) (time : Time) : Time :=
  time - time % cfg.time_precision

/-- `MockLeaderMemoryPerTask` (`testing.rs` lines 763-768): pending
reports per bucket, collection jobs, and the FIFO batch queue of
`(batch id, batch size)` pairs. `ρ` is the report type, `χ` the
collection type. -/
structure MockLeaderMemoryPerTask (ρ χ : Type) where
  pending_reports : List (DapBatchBucket × List ρ)
  coll_jobs : List (Nat × DapCollectionJob χ)
  batch_queue : List (Nat × Nat)
  deriving DecidableEq, Repr

/-- The fixed-size arm of `assign_report_to_bucket`: walk the batch queue
in order; the first batch with `report_count < min_batch_size` gets the
report (its count incremented); if none, append a fresh batch of size 1
(`fresh` models `rng.gen()`). -/
def assignFixedAux (min_batch_size fresh : Nat) :
    List (Nat × Nat) → Nat × List (Nat × Nat)
  | [] => (fresh, [(fresh, 1)])
  | (batch_id, report_count) :: rest =>
    if report_count < min_batch_size then
      (batch_id, (batch_id, report_count + 1) :: rest)
    else
      let p := assignFixedAux min_batch_size fresh rest
      (p.1, (batch_id, report_count) :: p.2)

/-- `MockLeaderMemoryPerTask::assign_report_to_bucket` (`testing.rs` lines
771-803). `timeOf` projects a report's metadata timestamp
(`report.report_metadata.time`). -/
def assign_report_to_bucket {ρ χ : Type} (cfg : DapTaskConfigT)
    (timeOf : ρ → Time) (fresh : Nat) (st : MockLeaderMemoryPerTask ρ χ)
    (report : ρ) : DapBatchBucket × MockLeaderMemoryPerTask ρ χ :=
  match cfg.query with
  | .FixedSize =>
    let p := assignFixedAux cfg.min_batch_size fresh st.batch_queue
    (.FixedSize p.1, { st with batch_queue := p.2 })
  | .TimeInterval =>
    (.TimeInterval (quantized_time_lower_bound cfg (timeOf report)), st)

/-- `MockLeaderMemory::put_report` (`testing.rs` lines 595-613) projected
to one task: assign the report to a bucket, then push it onto that
bucket's pending-report queue. -/
def put_report {ρ χ : Type} (cfg : DapTaskConfigT) (timeOf : ρ → Time)
    (fresh : Nat) (st : MockLeaderMemoryPerTask ρ χ) (report : ρ) :
    MockLeaderMemoryPerTask ρ χ :=
  let p := assign_report_to_bucket cfg timeOf fresh st report
  { p.2 with
    pending_reports :=
      alSet p.1 (((alGet p.1 p.2.pending_reports).getD []) ++ [report])
        p.2.pending_reports }

/-! ## Message-level decoding lemmas -/

theorem getDecoded_ok {α : Type} {d : Bytes → DecRes α} {full : Bytes} {a : α}
    (h : DecOk d full a) : getDecoded d full = .ok a := by
  unfold getDecoded
  have h2 := h []
  rw [List.append_nil] at h2
  rw [h2]

theorem getDecoded_trunc {α : Type} {d : Bytes → DecRes α} {full : Bytes}
    (h : DecTrunc d full) {k : Nat} (hk : k < full.length) :
    getDecoded d (full.take k) = .error .ShortRead := by
  unfold getDecoded
  rw [h k hk]

theorem getDecoded_inv {α : Type} {d : Bytes → DecRes α} {bs : Bytes} {a : α}
    (h : getDecoded d bs = .ok a) : d bs = .ok (a, []) := by
  unfold getDecoded at h
  cases h1 : d bs with
  | error e => rw [h1] at h; cases h
  | ok p =>
    obtain ⟨a2, rest⟩ := p
    rw [h1] at h
    cases rest with
    | nil =>
      simp only [Except.ok.injEq] at h
      rw [h]
    | cons b tl => cases h

/-! ## Claim theorems -/

/-- C5: for every task configuration (with a positive time precision, the
domain on which the Rust `%` does not panic), `Interval::is_valid_for`
returns true iff the start and duration are multiples of the time
precision (`min_batch_duration`) and the duration is at least the time
precision. -/
theorem C5_interval_is_valid_for (i : Interval) (tc : DapTaskConfig)
    (_hpos : 0 < tc.min_batch_duration) :
    i.is_valid_for tc = true ↔
      i.start % tc.min_batch_duration = 0 ∧
        i.duration % tc.min_batch_duration = 0 ∧
        tc.min_batch_duration ≤ i.duration := by
  unfold Interval.is_valid_for
  split
  case isTrue hc =>
    simp only [Bool.false_eq_true, false_iff]
    rintro ⟨h1, h2, h3⟩
    rcases hc with hc | hc | hc
    · exact hc h1
    · exact hc h2
    · omega
  case isFalse hc =>
    push_neg at hc
    simp only [true_iff]
    exact ⟨hc.1, hc.2.1, by omega⟩

theorem C5_witness :
    Interval.is_valid_for ⟨1000, 500⟩ ⟨500⟩ = true ↔
      1000 % 500 = 0 ∧ 500 % 500 = 0 ∧ 500 ≤ 500 :=
  C5_interval_is_valid_for ⟨1000, 500⟩ ⟨500⟩ (by decide)

/-- C6: decoding an HPKE KEM, KDF, or AEAD identifier from any 16-bit
codepoint always succeeds: the recognized codepoints (KEM 0x0020, KDF
0x0001, AEAD 0x0001) decode to the named variant, every other codepoint
to `NotImplemented` carrying the raw value. -/
theorem C6_hpke_id_decode_total (v : Nat) (rest : Bytes) (hv : v < 65536) :
    HpkeKemId.decode (beBytes 2 v ++ rest) =
      .ok (if v = KEM_ID_X25519_HKDF_SHA256 then .X25519HkdfSha256
        else .NotImplemented v, rest) ∧
    HpkeKdfId.decode (beBytes 2 v ++ rest) =
      .ok (if v = KDF_ID_HKDF_SHA256 then .HkdfSha256
        else .NotImplemented v, rest) ∧
    HpkeAeadId.decode (beBytes 2 v ++ rest) =
      .ok (if v = AEAD_ID_AES128GCM then .Aes128Gcm
        else .NotImplemented v, rest) := by
  refine ⟨?_, ?_, ?_⟩
  · unfold HpkeKemId.decode dthen
    rw [beDec_ok (lt_pow_two hv) rest]
    simp only
    split <;> simp
  · unfold HpkeKdfId.decode dthen
    rw [beDec_ok (lt_pow_two hv) rest]
    simp only
    split <;> simp
  · unfold HpkeAeadId.decode dthen
    rw [beDec_ok (lt_pow_two hv) rest]
    simp only
    split <;> simp

theorem C6_witness :
    HpkeKemId.decode (beBytes 2 99 ++ []) =
      .ok (if 99 = KEM_ID_X25519_HKDF_SHA256 then .X25519HkdfSha256
        else .NotImplemented 99, []) ∧
    HpkeKdfId.decode (beBytes 2 99 ++ []) =
      .ok (if 99 = KDF_ID_HKDF_SHA256 then .HkdfSha256
        else .NotImplemented 99, []) ∧
    HpkeAeadId.decode (beBytes 2 99 ++ []) =
      .ok (if 99 = AEAD_ID_AES128GCM then .Aes128Gcm
        else .NotImplemented 99, []) :=
  C6_hpke_id_decode_total 99 [] (by decide)

/-- C10 (implicit): `Interval::end` is an unchecked `u64` addition — below
`2^64` it returns the mathematical sum `start + duration`; when the sum
reaches `2^64` it wraps modulo `2^64` and thus does not return the
mathematical sum, with no error signal to the caller (the return type is
a plain integer); at `start = 2^64 - 1, duration = 1` it returns 0. -/
theorem C10_interval_end_wraps :
    (∀ i : Interval, i.start + i.duration < 2 ^ 64 →
      i.end' = i.start + i.duration) ∧
    (∀ i : Interval, 2 ^ 64 ≤ i.start + i.duration →
      i.end' ≠ i.start + i.duration) ∧
    Interval.end' ⟨2 ^ 64 - 1, 1⟩ = 0 := by
  refine ⟨?_, ?_, ?_⟩
  · intro i h
    exact Nat.mod_eq_of_lt h
  · intro i h
    unfold Interval.end'
    have hlt : (i.start + i.duration) % 2 ^ 64 < 2 ^ 64 :=
      Nat.mod_lt _ (by positivity)
    omega
  · decide

theorem C10_witness :
    Interval.end' ⟨7, 35⟩ = 7 + 35 ∧ Interval.end' ⟨2 ^ 64 - 1, 1⟩ ≠ (2 ^ 64 - 1) + 1 := by
  refine ⟨C10_interval_end_wraps.1 ⟨7, 35⟩ (by norm_num), ?_⟩
  exact C10_interval_end_wraps.2.1 ⟨2 ^ 64 - 1, 1⟩ (by norm_num)

/-- Sample values used to witness the codec claims on concrete inputs. -/
def idS : Id := ⟨List.replicate 32 3⟩

def nonceS : Nonce := ⟨1000, 42⟩

def hcS : HpkeCiphertext := ⟨23, [1, 2], [3, 4, 5]⟩

def reportS : Report := ⟨idS, nonceS, [9], [hcS, hcS]⟩

def rsS : ReportShare := ⟨nonceS, [], hcS⟩

def trS : Transition := ⟨nonceS, .Continued [7, 7]⟩

def aggReqS : AggregateReq := ⟨idS, idS, .Init [1] [rsS]⟩

def aggRespS : AggregateResp :=
  ⟨[trS, ⟨nonceS, .Finished⟩, ⟨nonceS, .Failed .ReportReplayed⟩]⟩

def intervalS : Interval := ⟨1000, 500⟩

def collectReqS : CollectReq := ⟨idS, intervalS, [2, 3]⟩

def collectRespS : CollectResp := ⟨[hcS]⟩

def asReqS : AggregateShareReq := ⟨idS, intervalS, [], 10, List.replicate 32 1⟩

def asRespS : AggregateShareResp := ⟨hcS⟩

def hpkeConfigS : HpkeConfig := ⟨1, .X25519HkdfSha256, .HkdfSha256, .Aes128Gcm, [0, 1]⟩

/-- C3 (amended): for every well-formed message value — representable in
the Rust types, with every 16-bit length-prefixed field fitting its prefix
(otherwise the source's `encode_u16_bytes` panics), and with HPKE
codepoint enums not using `NotImplemented` to carry a recognized codepoint
— decoding the encoding returns the original message, for each message
type of the codec layer. The canonicity proviso on `HpkeConfig` is forced
by the counterexample `C3_counterexample`. -/
theorem C3_decode_encode_roundtrip :
    (∀ m : Id, m.WF → getDecoded Id.decode m.encode = .ok m) ∧
    (∀ m : Nonce, m.WF → getDecoded Nonce.decode m.encode = .ok m) ∧
    (∀ m : Report, m.WF → getDecoded Report.decode m.encode = .ok m) ∧
    (∀ m : ReportShare, m.WF → getDecoded ReportShare.decode m.encode = .ok m) ∧
    (∀ m : AggregateReq, m.WF → getDecoded AggregateReq.decode m.encode = .ok m) ∧
    (∀ m : Transition, m.WF → getDecoded Transition.decode m.encode = .ok m) ∧
    (∀ m : AggregateResp, m.WF → getDecoded AggregateResp.decode m.encode = .ok m) ∧
    (∀ m : Interval, m.WF → getDecoded Interval.decode m.encode = .ok m) ∧
    (∀ m : CollectReq, m.WF → getDecoded CollectReq.decode m.encode = .ok m) ∧
    (∀ m : CollectResp, m.WF → getDecoded CollectResp.decode m.encode = .ok m) ∧
    (∀ m : AggregateShareReq, m.WF →
      getDecoded AggregateShareReq.decode m.encode = .ok m) ∧
    (∀ m : AggregateShareResp, m.WF →
      getDecoded AggregateShareResp.decode m.encode = .ok m) ∧
    (∀ m : HpkeConfig, m.WF → getDecoded HpkeConfig.decode m.encode = .ok m) ∧
    (∀ m : HpkeCiphertext, m.WF → getDecoded HpkeCiphertext.decode m.encode = .ok m) :=
  ⟨fun _ h => getDecoded_ok (Id_decode_ok h),
   fun _ h => getDecoded_ok (Nonce_decode_ok h),
   fun _ h => getDecoded_ok (Report_decode_ok h),
   fun _ h => getDecoded_ok (ReportShare_decode_ok h),
   fun _ h => getDecoded_ok (AggregateReq_decode_ok h),
   fun _ h => getDecoded_ok (Transition_decode_ok h),
   fun _ h => getDecoded_ok (AggregateResp_decode_ok h),
   fun _ h => getDecoded_ok (Interval_decode_ok h),
   fun _ h => getDecoded_ok (CollectReq_decode_ok h),
   fun _ h => getDecoded_ok (CollectResp_decode_ok h),
   fun _ h => getDecoded_ok (AggregateShareReq_decode_ok h),
   fun _ h => getDecoded_ok (AggregateShareResp_decode_ok h),
   fun _ h => getDecoded_ok (HpkeConfig_decode_ok h),
   fun _ h => getDecoded_ok (HpkeCiphertext_decode_ok h)⟩

theorem C3_witness :
    getDecoded Id.decode idS.encode = .ok idS ∧
    getDecoded Nonce.decode nonceS.encode = .ok nonceS ∧
    getDecoded Report.decode reportS.encode = .ok reportS ∧
    getDecoded ReportShare.decode rsS.encode = .ok rsS ∧
    getDecoded AggregateReq.decode aggReqS.encode = .ok aggReqS ∧
    getDecoded Transition.decode trS.encode = .ok trS ∧
    getDecoded AggregateResp.decode aggRespS.encode = .ok aggRespS ∧
    getDecoded Interval.decode intervalS.encode = .ok intervalS ∧
    getDecoded CollectReq.decode collectReqS.encode = .ok collectReqS ∧
    getDecoded CollectResp.decode collectRespS.encode = .ok collectRespS ∧
    getDecoded AggregateShareReq.decode asReqS.encode = .ok asReqS ∧
    getDecoded AggregateShareResp.decode asRespS.encode = .ok asRespS ∧
    getDecoded HpkeConfig.decode hpkeConfigS.encode = .ok hpkeConfigS ∧
    getDecoded HpkeCiphertext.decode hcS.encode = .ok hcS :=
  ⟨C3_decode_encode_roundtrip.1 idS (by decide),
   C3_decode_encode_roundtrip.2.1 nonceS (by decide),
   C3_decode_encode_roundtrip.2.2.1 reportS (by decide),
   C3_decode_encode_roundtrip.2.2.2.1 rsS (by decide),
   C3_decode_encode_roundtrip.2.2.2.2.1 aggReqS (by decide),
   C3_decode_encode_roundtrip.2.2.2.2.2.1 trS (by decide),
   C3_decode_encode_roundtrip.2.2.2.2.2.2.1 aggRespS (by decide),
   C3_decode_encode_roundtrip.2.2.2.2.2.2.2.1 intervalS (by decide),
   C3_decode_encode_roundtrip.2.2.2.2.2.2.2.2.1 collectReqS (by decide),
   C3_decode_encode_roundtrip.2.2.2.2.2.2.2.2.2.1 collectRespS (by decide),
   C3_decode_encode_roundtrip.2.2.2.2.2.2.2.2.2.2.1 asReqS (by decide),
   C3_decode_encode_roundtrip.2.2.2.2.2.2.2.2.2.2.2.1 asRespS (by decide),
   C3_decode_encode_roundtrip.2.2.2.2.2.2.2.2.2.2.2.2.1 hpkeConfigS (by decide),
   C3_decode_encode_roundtrip.2.2.2.2.2.2.2.2.2.2.2.2.2 hcS (by decide)⟩

/-- C3 counterexample: `HpkeConfig` with `kem_id = NotImplemented(0x0020)`
is representable in the Rust types (`NotImplemented` is a public variant),
but its encoding decodes to the named variant `X25519HkdfSha256`, so
`decode(encode(m)) ≠ m`. -/
theorem C3_counterexample :
    HpkeConfig.Representable
      ⟨1, .NotImplemented 32, .HkdfSha256, .Aes128Gcm, []⟩ ∧
    getDecoded HpkeConfig.decode
        (HpkeConfig.encode ⟨1, .NotImplemented 32, .HkdfSha256, .Aes128Gcm, []⟩) =
      .ok ⟨1, .X25519HkdfSha256, .HkdfSha256, .Aes128Gcm, []⟩ ∧
    (⟨1, .X25519HkdfSha256, .HkdfSha256, .Aes128Gcm, []⟩ : HpkeConfig) ≠
      ⟨1, .NotImplemented 32, .HkdfSha256, .Aes128Gcm, []⟩ := by
  refine ⟨by decide, by decide, by decide⟩

/-- C4: for every message type of the codec layer and every byte string on
which the message-level decode succeeds, re-encoding the decoded message
yields exactly the original byte string (canonical encoding). -/
theorem C4_canonical_encoding :
    (∀ (bs : Bytes) (m : Id), getDecoded Id.decode bs = .ok m → m.encode = bs) ∧
    (∀ (bs : Bytes) (m : Nonce), getDecoded Nonce.decode bs = .ok m → m.encode = bs) ∧
    (∀ (bs : Bytes) (m : Report), getDecoded Report.decode bs = .ok m → m.encode = bs) ∧
    (∀ (bs : Bytes) (m : ReportShare),
      getDecoded ReportShare.decode bs = .ok m → m.encode = bs) ∧
    (∀ (bs : Bytes) (m : AggregateReq),
      getDecoded AggregateReq.decode bs = .ok m → m.encode = bs) ∧
    (∀ (bs : Bytes) (m : Transition),
      getDecoded Transition.decode bs = .ok m → m.encode = bs) ∧
    (∀ (bs : Bytes) (m : AggregateResp),
      getDecoded AggregateResp.decode bs = .ok m → m.encode = bs) ∧
    (∀ (bs : Bytes) (m : Interval),
      getDecoded Interval.decode bs = .ok m → m.encode = bs) ∧
    (∀ (bs : Bytes) (m : CollectReq),
      getDecoded CollectReq.decode bs = .ok m → m.encode = bs) ∧
    (∀ (bs : Bytes) (m : CollectResp),
      getDecoded CollectResp.decode bs = .ok m → m.encode = bs) ∧
    (∀ (bs : Bytes) (m : AggregateShareReq),
      getDecoded AggregateShareReq.decode bs = .ok m → m.encode = bs) ∧
    (∀ (bs : Bytes) (m : AggregateShareResp),
      getDecoded AggregateShareResp.decode bs = .ok m → m.encode = bs) ∧
    (∀ (bs : Bytes) (m : HpkeConfig),
      getDecoded HpkeConfig.decode bs = .ok m → m.encode = bs) ∧
    (∀ (bs : Bytes) (m : HpkeCiphertext),
      getDecoded HpkeCiphertext.decode bs = .ok m → m.encode = bs) := by
  refine ⟨?_, ?_, ?_, ?_, ?_, ?_, ?_, ?_, ?_, ?_, ?_, ?_, ?_, ?_⟩
  · intro bs m h
    obtain ⟨_, hbs⟩ := Id_decode_exact (getDecoded_inv h)
    rw [hbs, List.append_nil]
  · intro bs m h
    obtain ⟨_, hbs⟩ := Nonce_decode_exact (getDecoded_inv h)
    rw [hbs, List.append_nil]
  · intro bs m h
    obtain ⟨_, hbs⟩ := Report_decode_exact (getDecoded_inv h)
    rw [hbs, List.append_nil]
  · intro bs m h
    obtain ⟨_, hbs⟩ := ReportShare_decode_exact (getDecoded_inv h)
    rw [hbs, List.append_nil]
  · intro bs m h
    obtain ⟨_, hbs⟩ := AggregateReq_decode_exact (getDecoded_inv h)
    rw [hbs, List.append_nil]
  · intro bs m h
    obtain ⟨_, hbs⟩ := Transition_decode_exact (getDecoded_inv h)
    rw [hbs, List.append_nil]
  · intro bs m h
    obtain ⟨_, hbs⟩ := AggregateResp_decode_exact (getDecoded_inv h)
    rw [hbs, List.append_nil]
  · intro bs m h
    obtain ⟨_, hbs⟩ := Interval_decode_exact (getDecoded_inv h)
    rw [hbs, List.append_nil]
  · intro bs m h
    obtain ⟨_, hbs⟩ := CollectReq_decode_exact (getDecoded_inv h)
    rw [hbs, List.append_nil]
  · intro bs m h
    obtain ⟨_, hbs⟩ := CollectResp_decode_exact (getDecoded_inv h)
    rw [hbs, List.append_nil]
  · intro bs m h
    obtain ⟨_, hbs⟩ := AggregateShareReq_decode_exact (getDecoded_inv h)
    rw [hbs, List.append_nil]
  · intro bs m h
    obtain ⟨_, hbs⟩ := AggregateShareResp_decode_exact (getDecoded_inv h)
    rw [hbs, List.append_nil]
  · intro bs m h
    obtain ⟨_, hbs⟩ := HpkeConfig_decode_exact (getDecoded_inv h)
    rw [hbs, List.append_nil]
  · intro bs m h
    obtain ⟨_, hbs⟩ := HpkeCiphertext_decode_exact (getDecoded_inv h)
    rw [hbs, List.append_nil]

theorem C4_witness :
    Interval.encode ⟨1000, 500⟩ = beBytes 8 1000 ++ beBytes 8 500 ∧
    HpkeCiphertext.encode hcS = hcS.encode ∧
    Report.encode reportS = reportS.encode :=
  ⟨C4_canonical_encoding.2.2.2.2.2.2.2.1 (beBytes 8 1000 ++ beBytes 8 500)
      ⟨1000, 500⟩ (by decide),
   C4_canonical_encoding.2.2.2.2.2.2.2.2.2.2.2.2.2 hcS.encode hcS (by decide),
   C4_canonical_encoding.2.2.1 reportS.encode reportS (by decide)⟩

theorem beDec_one_cons (b : Byte) (rest : Bytes) :
    beDec 1 (b :: rest) = .ok (b.val, rest) := by
  simp [beDec, beDecAux]

/-- C7: for every message type of the codec layer, decoding a strict
prefix of a valid encoding (of a well-formed value) fails with
`CodecError::ShortRead`; and an unrecognized `u8` discriminant tag fails
with `CodecError::UnexpectedValue` — an `AggregateReqVar` tag outside
`{0, 1}`, a `TransitionVar` tag outside `{0, 1, 2}`, and a
`TransitionFailure` byte outside `{0, ..., 5}`. -/
theorem C7_truncation_and_bad_tags :
    (∀ m : Id, m.WF → ∀ k, k < m.encode.length →
      getDecoded Id.decode (m.encode.take k) = .error .ShortRead) ∧
    (∀ m : Nonce, m.WF → ∀ k, k < m.encode.length →
      getDecoded Nonce.decode (m.encode.take k) = .error .ShortRead) ∧
    (∀ m : Report, m.WF → ∀ k, k < m.encode.length →
      getDecoded Report.decode (m.encode.take k) = .error .ShortRead) ∧
    (∀ m : ReportShare, m.WF → ∀ k, k < m.encode.length →
      getDecoded ReportShare.decode (m.encode.take k) = .error .ShortRead) ∧
    (∀ m : AggregateReq, m.WF → ∀ k, k < m.encode.length →
      getDecoded AggregateReq.decode (m.encode.take k) = .error .ShortRead) ∧
    (∀ m : Transition, m.WF → ∀ k, k < m.encode.length →
      getDecoded Transition.decode (m.encode.take k) = .error .ShortRead) ∧
    (∀ m : AggregateResp, m.WF → ∀ k, k < m.encode.length →
      getDecoded AggregateResp.decode (m.encode.take k) = .error .ShortRead) ∧
    (∀ m : Interval, m.WF → ∀ k, k < m.encode.length →
      getDecoded Interval.decode (m.encode.take k) = .error .ShortRead) ∧
    (∀ m : CollectReq, m.WF → ∀ k, k < m.encode.length →
      getDecoded CollectReq.decode (m.encode.take k) = .error .ShortRead) ∧
    (∀ m : CollectResp, m.WF → ∀ k, k < m.encode.length →
      getDecoded CollectResp.decode (m.encode.take k) = .error .ShortRead) ∧
    (∀ m : AggregateShareReq, m.WF → ∀ k, k < m.encode.length →
      getDecoded AggregateShareReq.decode (m.encode.take k) = .error .ShortRead) ∧
    (∀ m : AggregateShareResp, m.WF → ∀ k, k < m.encode.length →
      getDecoded AggregateShareResp.decode (m.encode.take k) = .error .ShortRead) ∧
    (∀ m : HpkeConfig, m.WF → ∀ k, k < m.encode.length →
      getDecoded HpkeConfig.decode (m.encode.take k) = .error .ShortRead) ∧
    (∀ m : HpkeCiphertext, m.WF → ∀ k, k < m.encode.length →
      getDecoded HpkeCiphertext.decode (m.encode.take k) = .error .ShortRead) ∧
    (∀ (b : Byte) (rest : Bytes), b.val ≠ 0 → b.val ≠ 1 →
      AggregateReqVar.decode (b :: rest) = .error .UnexpectedValue) ∧
    (∀ (b : Byte) (rest : Bytes), b.val ≠ 0 → b.val ≠ 1 → b.val ≠ 2 →
      TransitionVar.decode (b :: rest) = .error .UnexpectedValue) ∧
    (∀ v : Nat, 5 < v → TransitionFailure.tryFrom v = .error .UnexpectedValue) := by
  refine ⟨fun _ h _ hk => getDecoded_trunc (Id_decode_trunc h) hk,
    fun _ h _ hk => getDecoded_trunc (Nonce_decode_trunc h) hk,
    fun _ h _ hk => getDecoded_trunc (Report_decode_trunc h) hk,
    fun _ h _ hk => getDecoded_trunc (ReportShare_decode_trunc h) hk,
    fun _ h _ hk => getDecoded_trunc (AggregateReq_decode_trunc h) hk,
    fun _ h _ hk => getDecoded_trunc (Transition_decode_trunc h) hk,
    fun _ h _ hk => getDecoded_trunc (AggregateResp_decode_trunc h) hk,
    fun _ h _ hk => getDecoded_trunc (Interval_decode_trunc h) hk,
    fun _ h _ hk => getDecoded_trunc (CollectReq_decode_trunc h) hk,
    fun _ h _ hk => getDecoded_trunc (CollectResp_decode_trunc h) hk,
    fun _ h _ hk => getDecoded_trunc (AggregateShareReq_decode_trunc h) hk,
    fun _ h _ hk => getDecoded_trunc (AggregateShareResp_decode_trunc h) hk,
    fun _ h _ hk => getDecoded_trunc (HpkeConfig_decode_trunc h) hk,
    fun _ h _ hk => getDecoded_trunc (HpkeCiphertext_decode_trunc h) hk,
    ?_, ?_, ?_⟩
  · intro b rest h0 h1
    unfold AggregateReqVar.decode dthen
    rw [beDec_one_cons]
    simp only
    rcases hv : b.val with _ | (_ | k)
    · exact absurd hv h0
    · exact absurd hv h1
    · rfl
  · intro b rest h0 h1 h2
    unfold TransitionVar.decode dthen
    rw [beDec_one_cons]
    simp only
    rcases hv : b.val with _ | (_ | (_ | k))
    · exact absurd hv h0
    · exact absurd hv h1
    · exact absurd hv h2
    · rfl
  · intro v hv
    unfold TransitionFailure.tryFrom
    split <;> first | rfl | omega

theorem C7_witness :
    getDecoded Report.decode (reportS.encode.take 40) = .error .ShortRead ∧
    AggregateReqVar.decode ((9 : Byte) :: []) = .error .UnexpectedValue ∧
    TransitionVar.decode ((9 : Byte) :: []) = .error .UnexpectedValue ∧
    TransitionFailure.tryFrom 9 = .error .UnexpectedValue :=
  ⟨C7_truncation_and_bad_tags.2.2.1 reportS (by decide) 40 (by decide),
   C7_truncation_and_bad_tags.2.2.2.2.2.2.2.2.2.2.2.2.2.2.1 9 [] (by decide) (by decide),
   C7_truncation_and_bad_tags.2.2.2.2.2.2.2.2.2.2.2.2.2.2.2.1 9 [] (by decide)
     (by decide) (by decide),
   C7_truncation_and_bad_tags.2.2.2.2.2.2.2.2.2.2.2.2.2.2.2.2 9 (by decide)⟩

theorem alGet_alSet {κ ν : Type} [DecidableEq κ] (k : κ) (v : ν)
    (l : List (κ × ν)) : alGet k (alSet k v l) = some v := by
  induction l with
  | nil => simp [alSet, alGet]
  | cons p rest ih =>
    obtain ⟨k2, v2⟩ := p
    by_cases hk : k = k2
    · subst hk
      simp [alSet, alGet]
    · simp only [alSet, if_neg hk]
      simp only [alGet, if_neg hk]
      exact ih

/-- C8: `finish_collect_job` succeeds exactly when the stored job is
`Pending`, in which case the job transitions to `Done(collection)`; a job
in `Done` or `Unknown` (and a missing job) yields a fatal error and
leaves the job map unchanged — so the only legal lifecycle is
Unknown to Pending to Done. -/
theorem C8_finish_collect_job {χ : Type}
    (coll_jobs : List (Nat × DapCollectionJob χ)) (coll_job_id : Nat) (c : χ) :
    ((finish_collect_job coll_jobs coll_job_id c).1 = .ok () ↔
      alGet coll_job_id coll_jobs = some .Pending) ∧
    (alGet coll_job_id coll_jobs = some .Pending →
      finish_collect_job coll_jobs coll_job_id c =
        (.ok (), alSet coll_job_id (.Done c) coll_jobs) ∧
      alGet coll_job_id (finish_collect_job coll_jobs coll_job_id c).2 =
        some (.Done c)) ∧
    (∀ c0, alGet coll_job_id coll_jobs = some (.Done c0) →
      finish_collect_job coll_jobs coll_job_id c =
        (.error .OverwriteDone, coll_jobs)) ∧
    (alGet coll_job_id coll_jobs = some .Unknown →
      finish_collect_job coll_jobs coll_job_id c =
        (.error .OverwriteUnknown, coll_jobs)) ∧
    (alGet coll_job_id coll_jobs = none →
      finish_collect_job coll_jobs coll_job_id c =
        (.error .JobNotFound, coll_jobs)) := by
  refine ⟨⟨?_, ?_⟩, ?_, ?_, ?_, ?_⟩
  · intro hok
    unfold finish_collect_job at hok
    cases h : alGet coll_job_id coll_jobs with
    | none => rw [h] at hok; simp at hok
    | some job =>
      cases job with
      | Pending => rfl
      | Done c0 => rw [h] at hok; simp at hok
      | Unknown => rw [h] at hok; simp at hok
  · intro h
    unfold finish_collect_job
    rw [h]
  · intro h
    unfold finish_collect_job
    rw [h]
    exact ⟨rfl, alGet_alSet _ _ _⟩
  · intro c0 h
    unfold finish_collect_job
    rw [h]
  · intro h
    unfold finish_collect_job
    rw [h]
  · intro h
    unfold finish_collect_job
    rw [h]

theorem C8_witness :
    finish_collect_job [(1, DapCollectionJob.Pending), (2, .Done 7)] 1 5 =
      (.ok (), alSet 1 (.Done 5) [(1, DapCollectionJob.Pending), (2, .Done 7)]) ∧
    finish_collect_job [(1, DapCollectionJob.Pending), (2, .Done 7)] 2 5 =
      (.error .OverwriteDone, [(1, DapCollectionJob.Pending), (2, .Done 7)]) :=
  ⟨((C8_finish_collect_job [(1, DapCollectionJob.Pending), (2, .Done 7)] 1 5).2.1
      (by decide)).1,
   (C8_finish_collect_job [(1, DapCollectionJob.Pending), (2, .Done 7)] 2 5).2.2.1
      7 (by decide)⟩

/-- Task configuration of the fixed-size saturation scenario:
`min_batch_size = 10`, fixed-size queries. -/
def c9cfg : DapTaskConfigT := ⟨1, 10, .FixedSize⟩

/-- Empty per-task Leader state. -/
def c9st : MockLeaderMemoryPerTask Nat Unit := ⟨[], [], []⟩

/-- C9: for a fixed-size task, `assign_report_to_bucket` assigns a report
to the first batch in the FIFO batch queue whose count is strictly below
`min_batch_size` (incrementing that count), and appends a fresh batch of
size 1 when every batch is saturated; `put_report` applies this assignment
and pushes the report onto the chosen bucket's pending queue; submitting
25 reports with `min_batch_size = 10` leaves batches of sizes
`[10, 10, 5]` in order. -/
theorem C9_fixed_size_batch_assignment :
    (∀ (mbs fresh : Nat) (q1 q2 : List (Nat × Nat)) (id c : Nat),
      (∀ p ∈ q1, ¬ p.2 < mbs) → c < mbs →
      assignFixedAux mbs fresh (q1 ++ (id, c) :: q2) =
        (id, q1 ++ (id, c + 1) :: q2)) ∧
    (∀ (mbs fresh : Nat) (q : List (Nat × Nat)),
      (∀ p ∈ q, ¬ p.2 < mbs) →
      assignFixedAux mbs fresh q = (fresh, q ++ [(fresh, 1)])) ∧
    (∀ (ρ χ : Type) (cfg : DapTaskConfigT) (timeOf : ρ → Time) (fresh : Nat)
        (st : MockLeaderMemoryPerTask ρ χ) (report : ρ),
      cfg.query = .FixedSize →
      (put_report cfg timeOf fresh st report).batch_queue =
        (assignFixedAux cfg.min_batch_size fresh st.batch_queue).2 ∧
      alGet (.FixedSize (assignFixedAux cfg.min_batch_size fresh st.batch_queue).1)
          (put_report cfg timeOf fresh st report).pending_reports =
        some (((alGet
            (.FixedSize (assignFixedAux cfg.min_batch_size fresh st.batch_queue).1)
            st.pending_reports).getD []) ++ [report])) ∧
    ((List.range 25).foldl (fun st i => put_report c9cfg (fun t => t) i st i)
        c9st).batch_queue.map Prod.snd = [10, 10, 5] := by
  refine ⟨?_, ?_, ?_, ?_⟩
  · intro mbs fresh q1 q2 id c hsat hc
    induction q1 with
    | nil => simp [assignFixedAux, hc]
    | cons p q1 ih =>
      obtain ⟨bid, bc⟩ := p
      have hb : ¬ bc < mbs := hsat (bid, bc) (by simp)
      simp only [List.cons_append, assignFixedAux, if_neg hb, List.append_eq]
      rw [ih (fun p hp => hsat p (by simp [hp]))]
  · intro mbs fresh q hsat
    induction q with
    | nil => rfl
    | cons p q ih =>
      obtain ⟨bid, bc⟩ := p
      have hb : ¬ bc < mbs := hsat (bid, bc) (by simp)
      simp only [assignFixedAux, if_neg hb]
      rw [ih (fun p hp => hsat p (by simp [hp]))]
      rfl
  · intro ρ χ cfg timeOf fresh st report hq
    unfold put_report assign_report_to_bucket
    rw [hq]
    exact ⟨rfl, alGet_alSet _ _ _⟩
  · decide

theorem alGet_alSet_ne {κ ν : Type} [DecidableEq κ] {k k2 : κ} (hne : k ≠ k2)
    (v : ν) (l : List (κ × ν)) : alGet k (alSet k2 v l) = alGet k l := by
  induction l with
  | nil => simp [alSet, alGet, hne]
  | cons p rest ih =>
    obtain ⟨k3, v3⟩ := p
    by_cases hk : k2 = k3
    · subst hk
      simp [alSet, alGet, hne, ih]
    · simp only [alSet, if_neg hk]
      by_cases hk2 : k = k3
      · subst hk2
        simp [alGet]
      · simp [alGet, hk2, ih]

theorem tryPutBucket_replay {σ μ : Type} (merge : σ → σ → Except μ σ) (dflt : σ)
    (st : MockAggregatorTaskState σ) (bucket : DapBatchBucket) (delta : σ)
    (metas : List (ReportId × Time))
    (h : (metas.map Prod.fst).filter (fun id => id ∈ st.report_store) ≠ []) :
    tryPutBucket merge dflt st bucket delta metas =
      (.error (.ReplaysDetected
        ((metas.map Prod.fst).filter (fun id => id ∈ st.report_store))), st) := by
  simp only [tryPutBucket]
  rw [if_neg h]

theorem tryPutBucket_collected {σ μ : Type} (merge : σ → σ → Except μ σ) (dflt : σ)
    (st : MockAggregatorTaskState σ) (bucket : DapBatchBucket) (delta : σ)
    (metas : List (ReportId × Time))
    (hfree : (metas.map Prod.fst).filter (fun id => id ∈ st.report_store) = [])
    (hcol : ((alGet bucket st.agg_store).getD ⟨dflt, false⟩).collected = true) :
    tryPutBucket merge dflt st bucket delta metas =
      (.error .AlreadyCollected,
        { report_store := st.report_store ++ metas.map Prod.fst,
          agg_store := alSet bucket ((alGet bucket st.agg_store).getD ⟨dflt, false⟩)
            st.agg_store }) := by
  simp only [tryPutBucket]
  rw [if_pos hfree, if_pos hcol]

theorem tryPutBucket_merge_ok {σ μ : Type} (merge : σ → σ → Except μ σ) (dflt : σ)
    (st : MockAggregatorTaskState σ) (bucket : DapBatchBucket) (delta : σ)
    (metas : List (ReportId × Time)) (merged : σ)
    (hfree : (metas.map Prod.fst).filter (fun id => id ∈ st.report_store) = [])
    (hcol : ((alGet bucket st.agg_store).getD ⟨dflt, false⟩).collected = false)
    (hmerge : merge ((alGet bucket st.agg_store).getD ⟨dflt, false⟩).agg_share delta
      = .ok merged) :
    tryPutBucket merge dflt st bucket delta metas =
      (.ok (),
        { report_store := st.report_store ++ metas.map Prod.fst,
          agg_store := alSet bucket ⟨merged, false⟩ st.agg_store }) := by
  simp only [tryPutBucket]
  rw [if_pos hfree, if_neg (by rw [hcol]; simp), hmerge]

/-- A collected bucket entry is left exactly as it is by any single
`try_put_agg_share_span` bucket step, whichever bucket the step targets. -/
theorem tryPutBucket_frozen {σ μ : Type} (merge : σ → σ → Except μ σ) (dflt : σ)
    (st : MockAggregatorTaskState σ) (bucket b2 : DapBatchBucket) (delta : σ)
    (metas : List (ReportId × Time)) (s : σ)
    (hfro : alGet b2 st.agg_store = some ⟨s, true⟩) :
    alGet b2 (tryPutBucket merge dflt st bucket delta metas).2.agg_store =
      some ⟨s, true⟩ := by
  by_cases hrep : (metas.map Prod.fst).filter (fun id => id ∈ st.report_store) = []
  · by_cases hb : bucket = b2
    · subst hb
      rw [tryPutBucket_collected merge dflt st bucket delta metas hrep
        (by rw [hfro]; rfl)]
      simp only
      rw [hfro]
      simp only [Option.getD_some]
      exact alGet_alSet _ _ _
    · have hne : b2 ≠ bucket := fun hc => hb hc.symm
      simp only [tryPutBucket]
      rw [if_pos hrep]
      split
      · simpa [alGet_alSet_ne hne] using hfro
      · split
        · simpa [alGet_alSet_ne hne] using hfro
        · simpa [alGet_alSet_ne hne] using hfro
  · rw [tryPutBucket_replay merge dflt st bucket delta metas hrep]
    exact hfro

/-- `try_put_agg_share_span` processes the span head and then the rest in
sequence. -/
theorem try_put_span_cons {σ μ : Type} (merge : σ → σ → Except μ σ) (dflt : σ)
    (st : MockAggregatorTaskState σ) (bucket : DapBatchBucket) (delta : σ)
    (metas : List (ReportId × Time))
    (rest : List (DapBatchBucket × σ × List (ReportId × Time))) :
    try_put_agg_share_span merge dflt st ((bucket, delta, metas) :: rest) =
      ((bucket, (tryPutBucket merge dflt st bucket delta metas).1, metas) ::
          (try_put_agg_share_span merge dflt
            (tryPutBucket merge dflt st bucket delta metas).2 rest).1,
        (try_put_agg_share_span merge dflt
          (tryPutBucket merge dflt st bucket delta metas).2 rest).2) := rfl

/-- A collected bucket entry survives a whole `try_put_agg_share_span`
call unchanged. -/
theorem try_put_span_frozen {σ μ : Type} (merge : σ → σ → Except μ σ) (dflt : σ)
    (st : MockAggregatorTaskState σ)
    (span : List (DapBatchBucket × σ × List (ReportId × Time)))
    (bucket : DapBatchBucket) (s : σ)
    (hfro : alGet bucket st.agg_store = some ⟨s, true⟩) :
    alGet bucket (try_put_agg_share_span merge dflt st span).2.agg_store =
      some ⟨s, true⟩ := by
  induction span generalizing st with
  | nil => exact hfro
  | cons e rest ih =>
    obtain ⟨b1, d1, m1⟩ := e
    rw [try_put_span_cons]
    exact ih _ (tryPutBucket_frozen merge dflt st b1 bucket d1 m1 s hfro)

theorem setCollected_get_eq {σ : Type} (b : DapBatchBucket)
    (l : List (DapBatchBucket × AggStore σ)) :
    alGet b (setCollected b l) =
      (alGet b l).map (fun e => ⟨e.agg_share, true⟩) := by
  induction l with
  | nil => rfl
  | cons p rest ih =>
    obtain ⟨b2, e2⟩ := p
    simp only [setCollected, List.map_cons] at ih ⊢
    by_cases hb : b2 = b
    · subst hb
      rw [if_pos rfl]
      simp only [alGet, if_pos rfl]
      rfl
    · have hb2 : b ≠ b2 := fun hc => hb hc.symm
      rw [if_neg hb]
      simp only [alGet, if_neg hb2]
      exact ih

theorem setCollected_get_ne {σ : Type} {b b2 : DapBatchBucket} (hne : b2 ≠ b)
    (l : List (DapBatchBucket × AggStore σ)) :
    alGet b2 (setCollected b l) = alGet b2 l := by
  induction l with
  | nil => rfl
  | cons p rest ih =>
    obtain ⟨b3, e3⟩ := p
    simp only [setCollected, List.map_cons] at ih ⊢
    by_cases hb : b3 = b
    · subst hb
      rw [if_pos rfl]
      simp only [alGet, if_neg hne]
      exact ih
    · rw [if_neg hb]
      by_cases hb2 : b2 = b3
      · subst hb2
        simp [alGet]
      · simp only [alGet, if_neg hb2]
        exact ih

/-- Folding `setCollected` over any bucket list preserves an
already-collected entry exactly. -/
theorem foldl_setCollected_frozen {σ : Type} (bs : List DapBatchBucket)
    (l : List (DapBatchBucket × AggStore σ)) (bucket : DapBatchBucket) (s : σ)
    (hfro : alGet bucket l = some ⟨s, true⟩) :
    alGet bucket (bs.foldl (fun acc b => setCollected b acc) l) =
      some ⟨s, true⟩ := by
  induction bs generalizing l with
  | nil => exact hfro
  | cons b bs ih =>
    simp only [List.foldl_cons]
    apply ih
    by_cases hb : bucket = b
    · subst hb
      rw [setCollected_get_eq, hfro]
      rfl
    · rw [setCollected_get_ne hb]
      exact hfro

/-- Folding `setCollected` over a bucket list containing `bucket` turns an
existing entry's flag on, preserving its share. -/
theorem foldl_setCollected_mem {σ : Type} (bs : List DapBatchBucket)
    (l : List (DapBatchBucket × AggStore σ)) (bucket : DapBatchBucket)
    (entry : AggStore σ) (hmem : bucket ∈ bs)
    (hget : alGet bucket l = some entry) :
    alGet bucket (bs.foldl (fun acc b => setCollected b acc) l) =
      some ⟨entry.agg_share, true⟩ := by
  induction bs generalizing l with
  | nil => cases hmem
  | cons b bs ih =>
    simp only [List.foldl_cons]
    by_cases hb : bucket = b
    · subst hb
      apply foldl_setCollected_frozen
      rw [setCollected_get_eq, hget]
      rfl
    · rcases List.mem_cons.mp hmem with hc | hc
      · exact absurd hc hb
      · exact ih (setCollected b l) hc (by rw [setCollected_get_ne hb]; exact hget)

/-- A concrete merge operation (sum of counters, never failing) used to
instantiate the aggregate-share parameters on concrete inputs. -/
def mergeAdd : Nat → Nat → Except Nat Nat := fun a b => .ok (a + b)

/-- C1 (amended): `try_put_agg_share_span` processes the span's buckets in
sequence (first conjunct), and each bucket's outcome against the state at
its turn is: on `ReplaysDetected`, nothing changes — neither the bucket's
share nor the processed-report set; on `Ok`, the delta is merged into the
bucket's share and every report id of the bucket is marked processed; but
on `AlreadyCollected` the bucket's share is unchanged while the bucket's
report ids ARE added to the processed-report set — the processed set is
extended before the collected flag is consulted, which is what the
counterexample `C1_counterexample` exhibits against the claim as stated. -/
theorem C1_try_put_agg_share_span_outcomes :
    (∀ (σ μ : Type) (merge : σ → σ → Except μ σ) (dflt : σ)
        (st : MockAggregatorTaskState σ) (bucket : DapBatchBucket) (delta : σ)
        (metas : List (ReportId × Time))
        (rest : List (DapBatchBucket × σ × List (ReportId × Time))),
      try_put_agg_share_span merge dflt st ((bucket, delta, metas) :: rest) =
        ((bucket, (tryPutBucket merge dflt st bucket delta metas).1, metas) ::
            (try_put_agg_share_span merge dflt
              (tryPutBucket merge dflt st bucket delta metas).2 rest).1,
          (try_put_agg_share_span merge dflt
            (tryPutBucket merge dflt st bucket delta metas).2 rest).2)) ∧
    (∀ (σ μ : Type) (merge : σ → σ → Except μ σ) (dflt : σ)
        (st : MockAggregatorTaskState σ) (bucket : DapBatchBucket) (delta : σ)
        (metas : List (ReportId × Time)),
      (metas.map Prod.fst).filter (fun id => id ∈ st.report_store) ≠ [] →
      tryPutBucket merge dflt st bucket delta metas =
        (.error (.ReplaysDetected
          ((metas.map Prod.fst).filter (fun id => id ∈ st.report_store))), st)) ∧
    (∀ (σ μ : Type) (merge : σ → σ → Except μ σ) (dflt : σ)
        (st : MockAggregatorTaskState σ) (bucket : DapBatchBucket) (delta : σ)
        (metas : List (ReportId × Time)),
      (metas.map Prod.fst).filter (fun id => id ∈ st.report_store) = [] →
      ((alGet bucket st.agg_store).getD ⟨dflt, false⟩).collected = true →
      tryPutBucket merge dflt st bucket delta metas =
        (.error .AlreadyCollected,
          { report_store := st.report_store ++ metas.map Prod.fst,
            agg_store := alSet bucket
              ((alGet bucket st.agg_store).getD ⟨dflt, false⟩) st.agg_store })) ∧
    (∀ (σ μ : Type) (merge : σ → σ → Except μ σ) (dflt : σ)
        (st : MockAggregatorTaskState σ) (bucket : DapBatchBucket) (delta : σ)
        (metas : List (ReportId × Time)) (merged : σ),
      (metas.map Prod.fst).filter (fun id => id ∈ st.report_store) = [] →
      ((alGet bucket st.agg_store).getD ⟨dflt, false⟩).collected = false →
      merge ((alGet bucket st.agg_store).getD ⟨dflt, false⟩).agg_share delta
        = .ok merged →
      tryPutBucket merge dflt st bucket delta metas =
        (.ok (),
          { report_store := st.report_store ++ metas.map Prod.fst,
            agg_store := alSet bucket ⟨merged, false⟩ st.agg_store })) :=
  ⟨fun _ _ merge dflt st bucket delta metas rest =>
      try_put_span_cons merge dflt st bucket delta metas rest,
   fun _ _ merge dflt st bucket delta metas h =>
      tryPutBucket_replay merge dflt st bucket delta metas h,
   fun _ _ merge dflt st bucket delta metas hfree hcol =>
      tryPutBucket_collected merge dflt st bucket delta metas hfree hcol,
   fun _ _ merge dflt st bucket delta metas merged hfree hcol hm =>
      tryPutBucket_merge_ok merge dflt st bucket delta metas merged hfree hcol hm⟩

/-- C1 counterexample: a span whose single bucket is already collected —
the call returns `AlreadyCollected` for the bucket, yet the per-task
processed-report set changes from `[]` to `[1]`, contradicting the
all-or-nothing reading of the claim. -/
theorem C1_counterexample :
    (try_put_agg_share_span mergeAdd 0
        ⟨[], [(.FixedSize 0, ⟨0, true⟩)]⟩
        [(.FixedSize 0, 5, [(1, 0)])]).1 =
      [(.FixedSize 0, .error .AlreadyCollected, [(1, 0)])] ∧
    (try_put_agg_share_span mergeAdd 0
        ⟨[], [(.FixedSize 0, ⟨0, true⟩)]⟩
        [(.FixedSize 0, 5, [(1, 0)])]).2.report_store = [1] ∧
    ([1] : List ReportId) ≠ [] := by
  refine ⟨by decide, by decide, by decide⟩

theorem C1_witness :
    tryPutBucket mergeAdd 0 ⟨[1], []⟩ (.FixedSize 0) 5 [(1, 0)] =
      (.error (.ReplaysDetected [1]), ⟨[1], []⟩) ∧
    tryPutBucket mergeAdd 0 ⟨[], [(.FixedSize 0, ⟨3, true⟩)]⟩ (.FixedSize 0) 5
        [(2, 0)] =
      (.error .AlreadyCollected, ⟨[2], [(.FixedSize 0, ⟨3, true⟩)]⟩) ∧
    tryPutBucket mergeAdd 0 ⟨[], []⟩ (.FixedSize 0) 5 [(1, 0)] =
      (.ok (), ⟨[1], [(.FixedSize 0, ⟨5, false⟩)]⟩) :=
  ⟨(C1_try_put_agg_share_span_outcomes.2.1 Nat Nat mergeAdd 0 ⟨[1], []⟩
      (.FixedSize 0) 5 [(1, 0)] (by decide)).trans (by decide),
   (C1_try_put_agg_share_span_outcomes.2.2.1 Nat Nat mergeAdd 0
      ⟨[], [(.FixedSize 0, ⟨3, true⟩)]⟩ (.FixedSize 0) 5 [(2, 0)] (by decide)
      (by decide)).trans (by decide),
   (C1_try_put_agg_share_span_outcomes.2.2.2 Nat Nat mergeAdd 0 ⟨[], []⟩
      (.FixedSize 0) 5 [(1, 0)] 5 (by decide) (by decide) (by decide)).trans
      (by decide)⟩

/-- C2 (amended): for every bucket of a batch selector's span **that has
an aggregate-store entry when `mark_collected` runs**, the entry's
collected flag is set with its share preserved (first conjunct); a
collected entry survives any later `try_put_agg_share_span` call and any
later `mark_collected` call unchanged (second and third conjuncts); and a
later `try_put_agg_share_span` whose span contains the bucket — with that
entry's report ids unprocessed when its turn comes — yields
`AlreadyCollected` for that bucket (fourth conjunct). A bucket of the
span with no entry at mark time is not frozen, which is what
`C2_counterexample` exhibits against the claim as stated. -/
theorem C2_collected_bucket_frozen :
    (∀ (σ : Type) (tp : Nat) (st : MockAggregatorTaskState σ)
        (sel : BatchSelector) (bucket : DapBatchBucket) (entry : AggStore σ),
      bucket ∈ batch_span_for_sel tp sel →
      alGet bucket st.agg_store = some entry →
      alGet bucket (mark_collected tp st sel).agg_store =
        some ⟨entry.agg_share, true⟩ ∧
      (mark_collected tp st sel).report_store = st.report_store) ∧
    (∀ (σ μ : Type) (merge : σ → σ → Except μ σ) (dflt : σ)
        (st : MockAggregatorTaskState σ)
        (span : List (DapBatchBucket × σ × List (ReportId × Time)))
        (bucket : DapBatchBucket) (s : σ),
      alGet bucket st.agg_store = some ⟨s, true⟩ →
      alGet bucket (try_put_agg_share_span merge dflt st span).2.agg_store =
        some ⟨s, true⟩) ∧
    (∀ (σ : Type) (tp : Nat) (st : MockAggregatorTaskState σ)
        (sel : BatchSelector) (bucket : DapBatchBucket) (s : σ),
      alGet bucket st.agg_store = some ⟨s, true⟩ →
      alGet bucket (mark_collected tp st sel).agg_store = some ⟨s, true⟩) ∧
    (∀ (σ μ : Type) (merge : σ → σ → Except μ σ) (dflt : σ)
        (st : MockAggregatorTaskState σ)
        (span : List (DapBatchBucket × σ × List (ReportId × Time)))
        (bucket : DapBatchBucket) (s : σ) (i : Nat) (hi : i < span.length),
      alGet bucket st.agg_store = some ⟨s, true⟩ →
      (span.get ⟨i, hi⟩).1 = bucket →
      (∀ id ∈ (span.get ⟨i, hi⟩).2.2.map Prod.fst,
        id ∉ (try_put_agg_share_span merge dflt st (span.take i)).2.report_store) →
      (try_put_agg_share_span merge dflt st span).1[i]? =
        some (bucket, .error .AlreadyCollected, (span.get ⟨i, hi⟩).2.2)) := by
  refine ⟨?_, ?_, ?_, ?_⟩
  · intro σ tp st sel bucket entry hmem hget
    unfold mark_collected
    exact ⟨foldl_setCollected_mem _ _ _ _ hmem hget, rfl⟩
  · intro σ μ merge dflt st span bucket s hfro
    exact try_put_span_frozen merge dflt st span bucket s hfro
  · intro σ tp st sel bucket s hfro
    unfold mark_collected
    exact foldl_setCollected_frozen _ _ _ _ hfro
  · intro σ μ merge dflt st span
    induction span generalizing st with
    | nil =>
      intro bucket s i hi hfro hbk hfresh
      simp at hi
    | cons e rest ih =>
      intro bucket s i hi hfro hbk hfresh
      obtain ⟨b1, d1, m1⟩ := e
      cases i with
      | zero =>
        have hb1 : b1 = bucket := hbk
        subst hb1
        have hfree :
            (m1.map Prod.fst).filter (fun id => id ∈ st.report_store) = [] := by
          apply List.filter_eq_nil_iff.mpr
          intro a ha
          simp only [decide_eq_true_eq]
          exact hfresh a ha
        rw [try_put_span_cons]
        rw [tryPutBucket_collected merge dflt st b1 d1 m1 hfree
          (by rw [hfro]; rfl)]
        simp [List.getElem?_cons_zero, List.get_cons_zero]
      | succ i2 =>
        have hi2 : i2 < rest.length := by
          have h := hi
          simp only [List.length_cons] at h
          omega
        rw [try_put_span_cons, List.getElem?_cons_succ]
        rw [List.take_succ_cons, try_put_span_cons] at hfresh
        exact ih (tryPutBucket merge dflt st b1 d1 m1).2 bucket s i2 hi2
          (tryPutBucket_frozen merge dflt st b1 bucket d1 m1 s hfro) hbk hfresh

/-- C2 counterexample: `mark_collected` does not create entries — a bucket
of the selector's span with no aggregate-store entry is left unfrozen, and
a later merge into it succeeds with `Ok` instead of `AlreadyCollected`. -/
theorem C2_counterexample :
    DapBatchBucket.FixedSize 7 ∈ batch_span_for_sel 10 (.FixedSizeByBatchId 7) ∧
    mark_collected 10 (⟨[], []⟩ : MockAggregatorTaskState Nat)
      (.FixedSizeByBatchId 7) = ⟨[], []⟩ ∧
    (try_put_agg_share_span mergeAdd 0
        (mark_collected 10 (⟨[], []⟩ : MockAggregatorTaskState Nat)
          (.FixedSizeByBatchId 7))
        [(.FixedSize 7, 5, [(1, 0)])]).1 =
      [(.FixedSize 7, .ok (), [(1, 0)])] ∧
    (Except.ok () : Except (MergeAggShareError Nat) Unit) ≠
      .error .AlreadyCollected := by
  refine ⟨by decide, by decide, by decide, by decide⟩

theorem C2_witness :
    (alGet (.FixedSize 7)
        (mark_collected 10
          (⟨[], [(.FixedSize 7, ⟨3, false⟩)]⟩ : MockAggregatorTaskState Nat)
          (.FixedSizeByBatchId 7)).agg_store = some ⟨3, true⟩ ∧
      (mark_collected 10
        (⟨[], [(.FixedSize 7, ⟨3, false⟩)]⟩ : MockAggregatorTaskState Nat)
        (.FixedSizeByBatchId 7)).report_store = []) ∧
    (try_put_agg_share_span mergeAdd 0
        (⟨[], [(.FixedSize 7, ⟨3, true⟩)]⟩ : MockAggregatorTaskState Nat)
        [(.FixedSize 7, 5, [(1, 0)])]).1[0]? =
      some (.FixedSize 7, .error .AlreadyCollected, [(1, 0)]) :=
  ⟨C2_collected_bucket_frozen.1 Nat 10 ⟨[], [(.FixedSize 7, ⟨3, false⟩)]⟩
      (.FixedSizeByBatchId 7) (.FixedSize 7) ⟨3, false⟩ (by decide) (by decide),
   (C2_collected_bucket_frozen.2.2.2 Nat Nat mergeAdd 0
      ⟨[], [(.FixedSize 7, ⟨3, true⟩)]⟩ [(.FixedSize 7, 5, [(1, 0)])]
      (.FixedSize 7) 3 0 (by decide) (by decide) (by decide)
      (by decide)).trans (by decide)⟩

theorem C9_witness :
    assignFixedAux 10 99 ([(1, 10)] ++ (2, 3) :: []) = (2, [(1, 10)] ++ (2, 4) :: []) ∧
    assignFixedAux 10 99 [(1, 10)] = (99, [(1, 10)] ++ [(99, 1)]) ∧
    (put_report c9cfg (fun t => t) 4 c9st 0).batch_queue =
      (assignFixedAux c9cfg.min_batch_size 4 c9st.batch_queue).2 :=
  ⟨C9_fixed_size_batch_assignment.1 10 99 [(1, 10)] [] 2 3 (by decide) (by decide),
   C9_fixed_size_batch_assignment.2.1 10 99 [(1, 10)] (by decide),
   (C9_fixed_size_batch_assignment.2.2.1 Nat Unit c9cfg (fun t => t) 4 c9st 0
      (by decide)).1⟩

end Daphne
